import Mathlib

set_option maxRecDepth 100000

/-!
Shallow embedding of the persistent block allocator of file.go (package
file).  The backing store (the Go `File`) is modelled as a byte-addressed
map together with its current length; positional reads, positional writes
and truncation follow the Go io semantics (a read fully inside the current
length succeeds and sees 0 for never-written bytes, a read crossing the
end fails, a write always succeeds and may extend the length).  All
allocator functions are translated one-to-one from the Go source; machine
integers are modelled as unbounded Int with explicit wrapping in the
big-endian codec, Go panics and internal errors both surface as
`Err.internal`, and the unbounded `for` loops of the source
(freeLastPage's truncation chain, the Calloc / Realloc copy loops) take an
explicit fuel argument that dominates every terminating run of the Go
code.
-/

namespace FileAlloc

/-- Allocation granularity; the source spells it `allocAllign`. -/
def allocAllign : Int := 16

/-- Size of the pooled copy buffer used by Calloc and Realloc. -/
def bufSize : Int := 1 <<< 20

/-- Log2 of the page size. -/
def pageLog : Nat := 12

/-- Size of one page: 4096 bytes. -/
def pageSize : Int := 4096

/-- Number of page ranks (0..22). -/
def ranks : Nat := 23

/-- Number of slot ranks (0..6). -/
def slotRanks : Nat := 7

/-- Largest shared (slot-bearing) rank. -/
def maxSharedRank : Nat := slotRanks - 1

/-- First exclusive page rank. -/
def firstPageRank : Nat := maxSharedRank + 1

/-- Largest size served from a shared page. -/
def maxSlot : Int := 1024

/-- Size of the persistent file header (unsafe.Sizeof(file{}) = 256). -/
def szFile : Int := 256

/-- Size of a slot free-list node (two 8-byte links). -/
def szNode : Int := 16

/-- Size of a page header (six 8-byte fields). -/
def szPage : Int := 48

/-- Size of the trailing size word of a page. -/
def szTail : Int := 8

/-- Usable payload bytes of a shared page. -/
def pageAvail : Int := pageSize - szPage - szTail

/-- Offset of the persistent part of the header (skip field, after the
16-byte user area). -/
def oFileSkip : Int := 16

/-- Byte offset of the slots array inside the persistent header part
(after the 23 page heads). -/
def oSlotsInBuf : Nat := 184

/-- Clear the low bits: `x &^ (m-1)` of the source for a power of two m,
i.e. round x down to a multiple of m (two's-complement and-not is floor). -/
def andn (x m : Int) : Int := x - x % m

/-- roundup64 of the source: `(n + m - 1) &^ (m - 1)` for a power of two m. -/
def roundup (n m : Int) : Int := andn (n + m - 1) m

/-- The page-header offset of the page containing byte offset off:
`(off - szFile) &^ pageMask + szFile` of the source. -/
def alignPage (off : Int) : Int := andn (off - szFile) pageSize + szFile

/-- Structural helper computing the bit length of a natural number with
explicit fuel (fuel ≥ n suffices); mirrors mathutil.BitLen. -/
def bitLenAux : Nat → Nat → Nat
  | 0, _ => 0
  | fuel + 1, n => if n = 0 then 0 else bitLenAux fuel (n / 2) + 1

/-- Bit length of a natural number, as used by the source's log helper. -/
def bitLen (n : Nat) : Nat := bitLenAux n n

/-- Error kinds of the allocator: invalid argument, corrupted file at
open, an I/O failure of the backing store, and internal-error conditions
(both the Go panics and the internal fmt.Errorf returns). -/
inductive Err where
  | invalidArg : Err
  | corrupt : Err
  | ioErr : Err
  | internal : Err
deriving DecidableEq, Repr

/-- log of the source: 1 <<< (log n) is n rounded up to a power of two;
panics (Err.internal) on n ≤ 0. -/
def logE (n : Int) : Except Err Nat :=
  if n ≤ 0 then .error .internal else .ok (bitLen (n - 1).toNat)

/-- pageRank of the source: the page rank for a needed byte span n,
min(roundup(n, pageSize) / pageSize + 6, 22); panics on n ≤ maxSlot. -/
def pageRankE (n : Int) : Except Err Nat :=
  if n ≤ maxSlot then .error .internal
  else
    let r := ((roundup n pageSize) / pageSize).toNat + 6
    .ok (if r ≥ ranks then ranks - 1 else r)

/-- slotRank of the source: the slot rank for a size n in 1..1024,
log(roundup(n, 16)) - 4; panics outside that range. -/
def slotRankE (n : Int) : Except Err Nat :=
  if n < 1 ∨ n > 1024 then .error .internal
  else do
    let l ← logE (roundup n allocAllign)
    .ok (l - 4)

/-- rank of the source: dispatches to slotRank for n ≤ 1024 and to
pageRank above. -/
def rankE (n : Int) : Except Err Nat :=
  if n ≤ maxSlot then slotRankE n else pageRankE n

/-- a.cap of the source: the slot capacity of a shared page of rank r. -/
def capA (r : Nat) : Int := pageAvail / (2 ^ (r + 4))

/-- Wrap an integer into the signed 64-bit range, as Go int64 arithmetic
does. -/
def wrap64 (x : Int) : Int := (x + 2 ^ 63) % (2 ^ 64) - 2 ^ 63

/-- read of the source: decode the first 8 bytes of b as a big-endian
signed 64-bit integer (`n = n<<8 | v` over the bytes, with int64 wrap). -/
def read (b : List Int) : Int :=
  wrap64 ((b.take 8).foldl (fun n v => n * 256 + v) 0)

/-- write of the source: the 8 big-endian bytes of the int64 n
(`b[i] = byte(n >> 56); n <<= 8`, arithmetic shift, so byte i is
`(n >> (56-8i)) mod 256` with floor division). -/
def write (n : Int) : List Int :=
  (List.range 8).map fun i => (Int.fdiv n (2 ^ (56 - 8 * i))) % 256

/-- Backing store: current byte length plus the written bytes as an
association list (later writes shadow earlier ones, unwritten bytes
inside the length read as 0, exactly like a sparse file). -/
structure Store where
  size : Int
  mem : List (Int × Int)
deriving DecidableEq, Repr

/-- Read one byte of the store (0 when never written). -/
def readByte (s : Store) (o : Int) : Int := ((s.mem.lookup o).getD 0)

/-- Read n consecutive bytes starting at o. -/
def readBs (s : Store) (o : Int) : Nat → List Int
  | 0 => []
  | n + 1 => readByte s o :: readBs s (o + 1) n

/-- Association-list entries of a buffer written at offset o. -/
def writeEntries (o : Int) : List Int → List (Int × Int)
  | [] => []
  | b :: bs => (o, b) :: writeEntries (o + 1) bs

/-- Write consecutive bytes starting at o (WriteAt): the new entries
shadow older ones and the length extends to the end of the write. -/
def writeBs (s : Store) (o : Int) (bs : List Int) : Store :=
  if bs.isEmpty then s
  else ⟨max s.size (o + bs.length), writeEntries o bs ++ s.mem⟩

/-- Truncate of the backing store: drop every byte at or past n and set
the length to n. -/
def truncateS (s : Store) (n : Int) : Store :=
  ⟨n, s.mem.filter fun e => decide (e.1 < n)⟩

/-- Read the big-endian 64-bit word at byte offset o. -/
def readWord (s : Store) (o : Int) : Int := read (readBs s o 8)

/-- Write the big-endian 64-bit word v at byte offset o. -/
def writeWord (s : Store) (o v : Int) : Store := writeBs s o (write v)

/-- Every byte recorded in the store is a real byte value (what any run
against an actual file produces). -/
def WFStore (s : Store) : Prop := ∀ e ∈ s.mem, 0 ≤ e.2 ∧ e.2 < 256

/-- page of the source: the six persistent int64 fields of a page header,
in on-disk order brk, prev, next, rank, size, used. -/
structure Page where
  brk : Int
  prev : Int
  next : Int
  rank : Int
  size : Int
  used : Int
deriving DecidableEq, Repr

/-- memPage of the source: an in-memory page image with its file offset
and dirty flag. -/
structure MemPage where
  dirty : Bool
  off : Int
  brk : Int
  prev : Int
  next : Int
  rank : Int
  size : Int
  used : Int
deriving DecidableEq, Repr

/-- memNode of the source: an in-memory slot free-list node image. -/
structure MemNode where
  dirty : Bool
  off : Int
  prev : Int
  next : Int
deriving DecidableEq, Repr

/-- Allocator of the source: the in-memory mirror of the header (23 page
list heads and 7 slot list heads), the dirty flag, the cached file size,
the backing store itself, and the running statistics.  The pooled header
buffer is omitted: flush rewrites all 240 persistent bytes from pages and
slots, so the buffer carries no state of its own. -/
structure Allocator where
  pages : List Int
  slots : List Int
  dirty : Bool
  fsize : Int
  store : Store
  allocs : Int
  bytes : Int
  npages : Int
deriving DecidableEq, Repr

/-- List read with default 0, for the pages and slots arrays. -/
def getI (l : List Int) (i : Nat) : Int := l.getD i 0

/-- List write, for the pages and slots arrays. -/
def setI (l : List Int) (i : Nat) (v : Int) : List Int := l.set i v

/-- Allocator computations: state passing over the Allocator (which
carries the backing store) with Err short-circuiting.  Mirrors Go methods
on *Allocator: on error the state mutated so far is kept. -/
def AM (α : Type) : Type := Allocator → Except Err α × Allocator

/-- pure of the AM monad. -/
def AM.pureA {α : Type} (v : α) : AM α := fun a => (.ok v, a)

/-- bind of the AM monad. -/
def AM.bindA {α β : Type} (x : AM α) (f : α → AM β) : AM β := fun a =>
  match x a with
  | (.ok v, a') => f v a'
  | (.error e, a') => (.error e, a')

instance : Monad AM where
  pure := AM.pureA
  bind := AM.bindA

/-- Raise an error, keeping the state. -/
def throwE {α : Type} (e : Err) : AM α := fun a => (.error e, a)

/-- Lift a pure fallible computation (the Go helpers that can panic). -/
def liftE {α : Type} (x : Except Err α) : AM α := fun a => (x, a)

/-- Read the current allocator state. -/
def getS : AM Allocator := fun a => (.ok a, a)

/-- Update the allocator state. -/
def modifyS (f : Allocator → Allocator) : AM Unit := fun a => (.ok (), f a)

/-- ReadAt of the backing store: n bytes at off; fails (short read /
negative offset) unless the range lies inside the current length. -/
def readAt (off : Int) (n : Nat) : AM (List Int) := fun a =>
  if 0 ≤ off ∧ off + n ≤ a.store.size then (.ok (readBs a.store off n), a)
  else (.error .ioErr, a)

/-- WriteAt of the backing store (always succeeds in this model). -/
def writeAt (off : Int) (bs : List Int) : AM Unit :=
  modifyS fun a => { a with store := writeBs a.store off bs }

/-- Truncate of the backing store. -/
def truncF (n : Int) : AM Unit :=
  modifyS fun a => { a with store := truncateS a.store n }

/-- Allocator.read of the source: read one big-endian int64 at off. -/
def readA (off : Int) : AM Int := do
  let b ← readAt off 8
  pure (read b)

/-- Allocator.setPage of the source. -/
def setPage (rank : Nat) (n : Int) : AM Unit :=
  modifyS fun a => { a with pages := setI a.pages rank n, dirty := true }

/-- Allocator.setSlot of the source. -/
def setSlot (rank : Nat) (n : Int) : AM Unit :=
  modifyS fun a => { a with slots := setI a.slots rank n, dirty := true }

/-- memNode.setNext of the source. -/
def MemNode.setNext (m : MemNode) (n : Int) : MemNode :=
  { m with next := n, dirty := true }

/-- memNode.setPrev of the source. -/
def MemNode.setPrev (m : MemNode) (n : Int) : MemNode :=
  { m with prev := n, dirty := true }

/-- memNode.flush buffer contents (prev then next, the on-disk order). -/
def nodeBytes (m : MemNode) : List Int := write m.prev ++ write m.next

/-- memNode.flush of the source: write prev and next at off when dirty.
The source sets `m.dirty = err == nil` afterwards; the model's WriteAt
always succeeds, so the flag is set to true exactly as the Go line does. -/
def MemNode.flush (m : MemNode) : AM MemNode :=
  if !m.dirty then pure m
  else do
    writeAt m.off (nodeBytes m)
    pure { m with dirty := true }

/-- Allocator.openNode of the source: read the 16-byte node at off. -/
def openNode (off : Int) : AM MemNode := do
  let b ← readAt off 16
  pure { dirty := false, off, prev := read (b.take 8), next := read ((b.drop 8).take 8) }

/-- memNode.unlink of the source: splice the node out of the rank's slot
free-list (flushing the touched neighbours) and move the list head past
it when it is the head. -/
def MemNode.unlink (m : MemNode) (rank : Nat) : AM Unit := do
  if m.prev ≠ 0 then do
    let prev ← openNode m.prev
    let _ ← (prev.setNext m.next).flush
    pure ()
  if m.next ≠ 0 then do
    let next ← openNode m.next
    let _ ← (next.setPrev m.prev).flush
    pure ()
  let a ← getS
  if getI a.slots rank = m.off then setSlot rank m.next

/-- memPage setters of the source (pure in-memory mutations). -/
def MemPage.setBrk (m : MemPage) (n : Int) : MemPage :=
  { m with brk := n, dirty := true }

/-- memPage.setNext of the source. -/
def MemPage.setNext (m : MemPage) (n : Int) : MemPage :=
  { m with next := n, dirty := true }

/-- memPage.setPrev of the source. -/
def MemPage.setPrev (m : MemPage) (n : Int) : MemPage :=
  { m with prev := n, dirty := true }

/-- memPage.setRank of the source. -/
def MemPage.setRank (m : MemPage) (n : Int) : MemPage :=
  { m with rank := n, dirty := true }

/-- memPage.setSize of the source. -/
def MemPage.setSize (m : MemPage) (n : Int) : MemPage :=
  { m with size := n, dirty := true }

/-- memPage.setUsed of the source. -/
def MemPage.setUsed (m : MemPage) (n : Int) : MemPage :=
  { m with used := n, dirty := true }

/-- memPage.flush buffer contents: the six header fields in on-disk
order brk, prev, next, rank, size, used. -/
def pageBytes (m : MemPage) : List Int :=
  write m.brk ++ write m.prev ++ write m.next ++ write m.rank ++ write m.size ++ write m.used

/-- memPage.flush of the source (see nodeBytes / MemNode.flush for the
dirty-flag note). -/
def MemPage.flush (m : MemPage) : AM MemPage :=
  if !m.dirty then pure m
  else do
    writeAt m.off (pageBytes m)
    pure { m with dirty := true }

/-- memPage.setTail of the source: write n into the trailing size word at
off + size - szTail. -/
def MemPage.setTail (m : MemPage) (n : Int) : AM Unit :=
  writeAt (m.off + m.size - szTail) (write n)

/-- memPage.slot of the source: the offset of slot i,
off + szPage + i·(16 << rank). -/
def MemPage.slot (m : MemPage) (i : Int) : Int :=
  m.off + szPage + i * 2 ^ (m.rank + 4).toNat

/-- Allocator.openPage of the source: read the 48-byte page header at
off. -/
def openPage (off : Int) : AM MemPage := do
  let b ← readAt off 48
  pure { dirty := false, off,
         brk := read (b.take 8),
         prev := read ((b.drop 8).take 8),
         next := read ((b.drop 16).take 8),
         rank := read ((b.drop 24).take 8),
         size := read ((b.drop 32).take 8),
         used := read ((b.drop 40).take 8) }

/-- memPage.unlink of the source: splice the page out of its rank's page
free-list, move the list head past it when it is the head, and clear its
own links. -/
def MemPage.unlink (m : MemPage) : AM MemPage := do
  if m.prev ≠ 0 then do
    let prev ← openPage m.prev
    let _ ← (prev.setNext m.next).flush
    pure ()
  if m.next ≠ 0 then do
    let next ← openPage m.next
    let _ ← (next.setPrev m.prev).flush
    pure ()
  let a ← getS
  if getI a.pages m.rank.toNat = m.off then setPage m.rank.toNat m.next
  pure ((m.setPrev 0).setNext 0)

/-- Loop body of memPage.freeSlots: unlink and flush the node inside each
carved slot (indices 0 ≤ i < brk). -/
def freeSlotsLoop (m : MemPage) : List Nat → AM Unit
  | [] => pure ()
  | i :: rest => do
    let n ← openNode (m.slot i)
    n.unlink m.rank.toNat
    let _ ← n.flush
    freeSlotsLoop m rest

/-- memPage.freeSlots of the source: requires used = 0 (else an internal
error), then unlinks the node of every carved slot from its rank's slot
free-list. -/
def MemPage.freeSlots (m : MemPage) : AM Unit := do
  if m.used ≠ 0 then throwE .internal
  else freeSlotsLoop m (List.range m.brk.toNat)

/-- Allocator.flush buffer contents: the 23 page heads then the 7 slot
heads, big-endian. -/
def headerBytes (pages slots : List Int) : List Int :=
  (((List.range ranks).map fun i => write (getI pages i)).flatten) ++
  (((List.range slotRanks).map fun i => write (getI slots i)).flatten)

/-- Allocator.flush of the source (see MemNode.flush for the dirty-flag
note): when dirty, rewrite the 240 persistent header bytes at offset
16. -/
def flushA : AM Unit := fun a =>
  if !a.dirty then (.ok (), a)
  else
    (.ok (),
     { a with
       store := writeBs a.store oFileSkip (headerBytes a.pages a.slots)
       dirty := true })

/-- Allocator.newMemPage of the source: a fresh zeroed in-memory page at
off. -/
def newMemPage (off : Int) : MemPage :=
  { dirty := false, off, brk := 0, prev := 0, next := 0, rank := 0, size := 0, used := 0 }

/-- Allocator.insertPage of the source: push p as the new head of
pages[p.rank]; panics (Err.internal) when p is still linked. -/
def insertPage (p : MemPage) : AM MemPage := do
  if p.prev ≠ 0 ∨ p.next ≠ 0 then throwE .internal
  else do
    let a ← getS
    let p := p.setNext (getI a.pages p.rank.toNat)
    if p.next ≠ 0 then do
      let next ← openPage p.next
      let _ ← (next.setPrev p.off).flush
      pure ()
    setPage p.rank.toNat p.off
    pure p

/-- Allocator.insertSlot of the source: push the freed slot at off as the
new head node of slots[rank]. -/
def insertSlot (rank : Nat) (off : Int) : AM Unit := do
  let a ← getS
  let m : MemNode := { dirty := false, off, prev := 0, next := 0 }
  let m := m.setNext (getI a.slots rank)
  if m.next ≠ 0 then do
    let next ← openNode m.next
    let _ ← (next.setPrev off).flush
    pure ()
  setSlot rank off
  let _ ← m.flush
  pure ()

/-- Allocator.newPage of the source: append a fresh exclusive page sized
roundup(szPage + size + szTail, pageSize) at the next page boundary past
fsize, bump the statistics and fsize, and write its tail word as 0. -/
def newPage (size : Int) : AM MemPage := do
  let a ← getS
  let off := roundup (a.fsize - szFile) pageSize + szFile
  let size := roundup (szPage + size + szTail) pageSize
  let r ← liftE (pageRankE size)
  let p := ((newMemPage off).setRank r).setSize size
  modifyS fun a =>
    { a with bytes := a.bytes + size, fsize := off + size, npages := a.npages + 1 }
  p.setTail 0
  pure p

/-- Allocator.newSharedPage of the source: append a fresh one-page shared
page of the given slot rank and write its tail word as 0. -/
def newSharedPage (rank : Nat) : AM MemPage := do
  let a ← getS
  let off := roundup (a.fsize - szFile) pageSize + szFile
  let p := ((newMemPage off).setRank rank).setSize pageSize
  modifyS fun a =>
    { a with bytes := a.bytes + pageSize, fsize := off + pageSize, npages := a.npages + 1 }
  p.setTail 0
  pure p

/-- memPage.split of the source: shrink the exclusive page in place to
need bytes (re-ranked, tail 0), carve the remainder into a fresh free
page linked on its rank's list (tail = its size), and return the payload
offset of the shrunk page.  Called on a shared rank it reports the
source's internal error. -/
def MemPage.split (m : MemPage) (need : Int) : AM Int := do
  if m.rank ≤ (maxSharedRank : Int) then throwE .internal
  else do
    let hav := m.size
    let m := m.setSize need
    let r ← liftE (pageRankE m.size)
    let m := m.setRank r
    let m ← m.flush
    m.setTail 0
    let q := (newMemPage (m.off + m.size)).setSize (hav - need)
    let r2 ← liftE (pageRankE (hav - need))
    let q := q.setRank r2
    modifyS fun a => { a with npages := a.npages + 1 }
    let q ← insertPage q
    let q ← q.flush
    q.setTail q.size
    flushA
    pure (m.off + szPage)

/-- Allocator.sbrk of the source: bump-allocate the next slot of the head
page of pages[rank]; panics (Err.internal) when the stored rank differs;
unlinks the page when it becomes full. -/
def sbrk (off : Int) (rank : Nat) : AM Int := do
  let p ← openPage off
  if p.rank ≠ (rank : Int) then throwE .internal
  else do
    let p := (p.setUsed (p.used + 1)).setBrk (p.brk + 1)
    let p ← if p.brk = capA rank then p.unlink else pure p
    let p ← p.flush
    let r := p.slot (p.brk - 1)
    flushA
    pure r

/-- Allocator.sbrk2 of the source: take the head page of
pages[firstPageRank] (a demoted free small page), re-rank it to the
requested slot rank with used = brk = 1, relink it, clear its tail and
return slot 0. -/
def sbrk2 (off : Int) (rank : Nat) : AM Int := do
  let p ← openPage off
  let p ← p.unlink
  let p := (((p.setRank rank).setUsed 1).setBrk 1)
  let p ← insertPage p
  let p ← p.flush
  p.setTail 0
  flushA
  pure (p.off + szPage)

/-- Allocator.allocSlot of the source: pop the head node off slots[rank],
bump used of its containing page and return the node's offset. -/
def allocSlot (off : Int) (rank : Nat) : AM Int := do
  let n ← openNode off
  n.unlink rank
  let p ← openPage (alignPage off)
  let p := p.setUsed (p.used + 1)
  let _ ← p.flush
  flushA
  pure off

/-- Allocator.allocBig2 of the source: take the head page off pages[i]
(its rank guarantees it is large enough), clear its tail and return its
payload offset. -/
def allocBig2 (off : Int) : AM Int := do
  let p ← openPage off
  let p ← p.unlink
  let p ← p.flush
  p.setTail 0
  flushA
  pure (p.off + szPage)

/-- Allocator.allocMaxRank of the source: unlink p from the catch-all
rank-22 list, shrink it to need bytes (tail 0), and link the remainder,
when any, as a fresh free page with tail = its size. -/
def allocMaxRank (p : MemPage) (need : Int) : AM Int := do
  let p ← p.unlink
  let rem := p.size - need
  let p := p.setSize need
  let r ← liftE (pageRankE p.size)
  let p := p.setRank r
  let p ← p.flush
  p.setTail 0
  if rem ≠ 0 then do
    let q := (newMemPage (p.off + p.size)).setSize rem
    let r2 ← liftE (pageRankE rem)
    let q := q.setRank r2
    modifyS fun a => { a with npages := a.npages + 1 }
    let q ← insertPage q
    let q ← q.flush
    q.setTail q.size
  flushA
  pure (p.off + szPage)

/-- Scan of Allocator.allocBig over the page free-lists from the needed
rank upwards (the i loop of the source, with the depth-2 inner scan of
the rank-22 catch-all bucket unrolled); when no free page fits, append a
fresh page. -/
def scanBig (size need : Int) : List Nat → AM Int
  | [] => do
    let p ← newPage size
    let p ← p.flush
    flushA
    pure (p.off + szPage)
  | i :: rest => do
    let a ← getS
    let off := getI a.pages i
    if off = 0 then scanBig size need rest
    else if i < ranks - 1 then allocBig2 off
    else do
      let p ← openPage off
      if p.size ≥ need then allocMaxRank p need
      else if p.next = 0 then scanBig size need rest
      else do
        let p2 ← openPage p.next
        if p2.size ≥ need then allocMaxRank p2 need
        else scanBig size need rest

/-- Allocator.allocBig of the source: size > maxSlot; compute the needed
span and its rank, scan the free lists from that rank up, and fall back
to appending a new page. -/
def allocBig (size : Int) : AM Int := do
  let need := roundup (szPage + size + szTail) pageSize
  let rank ← liftE (pageRankE need)
  scanBig size need (List.range' rank (ranks - rank))

/-- Allocator.Alloc of the source: size ≤ 0 is an invalid argument; sizes
above maxSlot go to allocBig; small sizes are served in order from the
rank's bump page, a demoted rank-7 page, the rank's slot free-list, or a
fresh shared page. -/
def alloc (size : Int) : AM Int := do
  if size ≤ 0 then throwE .invalidArg
  else do
    modifyS fun a => { a with allocs := a.allocs + 1 }
    if size > maxSlot then allocBig size
    else do
      let rank ← liftE (slotRankE size)
      let a ← getS
      if getI a.pages rank ≠ 0 then sbrk (getI a.pages rank) rank
      else do
        let a ← getS
        if getI a.pages firstPageRank ≠ 0 then sbrk2 (getI a.pages firstPageRank) rank
        else do
          let a ← getS
          if getI a.slots rank ≠ 0 then allocSlot (getI a.slots rank) rank
          else do
            let p ← newSharedPage rank
            let p ← insertPage p
            let p := (p.setUsed 1).setBrk 1
            let p ← p.flush
            let r := p.slot 0
            flushA
            pure r

/-- Zeroing loop of Allocator.Calloc: chunks of the pooled buffer length
until size bytes are written.  The fuel dominates the iteration count of
every terminating run of the Go loop. -/
def callocZero : Nat → Int → Int → Nat → AM Unit
  | 0, size, _, _ => if size = 0 then pure () else throwE .internal
  | fuel + 1, size, dst, bl =>
    if size = 0 then pure ()
    else do
      let rq := if size < (bl : Int) then size.toNat else bl
      writeAt dst (List.replicate rq 0)
      callocZero fuel (size - rq) (dst + rq) bl

/-- Allocator.Calloc of the source: Alloc then overwrite size bytes of
the returned region with zeros through the pooled buffer. -/
def calloc (size : Int) : AM Int := do
  let off ← alloc size
  callocZero (size.toNat + 1) size off (min bufSize size).toNat
  pure off

/-- Truncation loop of Allocator.freeLastPage: unlink and flush the tail
page, truncate the store at its offset, and recurse into the previous
page while its tail word marks it free.  The fuel dominates every
terminating run of the Go loop. -/
def freeLastPageLoop : Nat → MemPage → AM Unit
  | 0, _ => throwE .internal
  | fuel + 1, p => do
    if p.rank ≤ (maxSharedRank : Int) then p.freeSlots
    let p ← p.unlink
    let p ← p.flush
    truncF p.off
    modifyS fun a =>
      { a with fsize := p.off, npages := a.npages - 1, bytes := a.bytes - p.size }
    if p.off > szFile then do
      let prevSize ← readA (p.off - szTail)
      if prevSize ≠ 0 then do
        let p' ← openPage (p.off - prevSize)
        freeLastPageLoop fuel p'

/-- Allocator.freeLastPage of the source. -/
def freeLastPage (p : MemPage) : AM Unit :=
  freeLastPageLoop (p.off.toNat + 1) p

/-- Allocator.freePage of the source: requires used = 0; the tail page is
truncated away (freeLastPage); a middle shared page has its slot nodes
unlinked and is demoted to rank firstPageRank; a middle page is then
linked on its rank's free-list with tail = size. -/
def freePage (p : MemPage) : AM Unit := do
  if p.used ≠ 0 then throwE .internal
  else do
    let a ← getS
    if p.off + p.size = a.fsize then freeLastPage p
    else do
      let p ←
        if p.rank ≤ (maxSharedRank : Int) then do
          p.freeSlots
          let p ← p.unlink
          pure ((p.setBrk 0).setRank (firstPageRank : Int))
        else pure p
      let p ← insertPage p
      let p ← p.flush
      p.setTail p.size

/-- Allocator.Free of the source: off below szFile + szPage is an invalid
argument; an exclusive page is freed whole; a shared slot is pushed on
its rank's slot free-list, freeing the page when used drops to 0. -/
def free (off : Int) : AM Unit := do
  if off < szFile + szPage then throwE .invalidArg
  else do
    modifyS fun a => { a with allocs := a.allocs - 1 }
    let p ← openPage (alignPage off)
    if p.rank > (maxSharedRank : Int) then do
      freePage p
      flushA
    else do
      let p := p.setUsed (p.used - 1)
      insertSlot p.rank.toNat off
      if p.used = 0 then do
        freePage p
        flushA
      else do
        let _ ← p.flush
        flushA

/-- Allocator.usableSize of the source: the usable byte length of the
block at off together with its containing page; 16 << rank for a shared
page, size - szPage - szTail for an exclusive one; panics (Err.internal)
on a stored rank outside 0..22. -/
def usableSize (off : Int) : AM (Int × MemPage) := do
  if off < szFile + szPage then throwE .invalidArg
  else do
    let p ← openPage (alignPage off)
    if p.rank < 0 ∨ p.rank ≥ (ranks : Int) then throwE .internal
    else if p.rank ≤ (maxSharedRank : Int) then pure (2 ^ (p.rank + 4).toNat, p)
    else pure (p.size - szPage - szTail, p)

/-- Allocator.UsableSize of the source. -/
def usableSizeA (off : Int) : AM Int := do
  let r ← usableSize off
  pure r.1

/-- Copy loop of Allocator.Realloc: move min(oldSize, size) bytes through
the pooled buffer.  The model reads each full chunk or fails where the Go
code would stop with an error; the fuel dominates every terminating run. -/
def copyLoop : Nat → Int → Int → Int → Nat → AM Unit
  | 0, rem, _, _, _ => if rem = 0 then pure () else throwE .internal
  | fuel + 1, rem, src, dst, bl =>
    if rem = 0 then pure ()
    else do
      let b ← readAt src bl
      writeAt dst b
      copyLoop fuel (rem - bl) (src + bl) (dst + bl) bl

/-- Move path of Allocator.Realloc: allocate the new region, copy
min(oldSize, size) bytes across, free the old region and return the new
offset. -/
def reallocMove (off oldSize size : Int) : AM Int := do
  let newOff ← alloc size
  let rem := min oldSize size
  copyLoop (rem.toNat + 1) rem off newOff (min bufSize rem).toNat
  free off
  pure newOff

/-- Allocator.Realloc of the source: invalid argument below
szFile + szPage; size 0 frees and returns the sentinel -1; a request that
already fits is returned in place when its rank is unchanged, or split in
place when an exclusive page is larger than needed; otherwise the block
is moved. -/
def realloc (off size : Int) : AM Int := do
  if off < szFile + szPage then throwE .invalidArg
  else if size = 0 then do
    free off
    pure (-1)
  else do
    let os ← usableSize off
    let oldSize := os.1
    let p := os.2
    if oldSize ≥ size then do
      let newRank ← liftE (rankE size)
      if p.rank = (newRank : Int) then pure off
      else
        if (newRank : Int) > (maxSharedRank : Int) ∧
            p.size > roundup (szPage + size + szTail) pageSize then
          p.split (roundup (szPage + size + szTail) pageSize)
        else reallocMove off oldSize size
    else reallocMove off oldSize size

/-- check of the source: a decoded list head must lie in [mn, mx], else
the file is corrupt. -/
def check (n mn mx : Int) : Except Err Int :=
  if n < mn ∨ n > mx then .error .corrupt else .ok n

/-- Validation fold of NewAllocator: check every decoded head in order,
returning the heads when all pass. -/
def checkAll (mx : Int) : List Int → Except Err (List Int)
  | [] => .ok []
  | n :: rest => do
    let v ← check n 0 mx
    let vs ← checkAll mx rest
    .ok (v :: vs)

/-- NewAllocator of the source: stat the store; when its length is at
most oFileSkip (16), write 240 zero bytes at offset 16 (the zeroed list
heads); otherwise read the 240 persistent header bytes at offset 16 (a
short read is a fatal open error), decode the 23 page heads and 7 slot
heads and validate each against [0, fsize - szPage]. -/
def newAllocator (s : Store) : Except Err Allocator :=
  let fsize := s.size
  if fsize ≤ oFileSkip then
    .ok { pages := List.replicate ranks 0, slots := List.replicate slotRanks 0,
          dirty := false, fsize,
          store := writeBs s oFileSkip (List.replicate 240 0),
          allocs := 0, bytes := 0, npages := 0 }
  else if ¬ (oFileSkip + 240 ≤ fsize) then .error .ioErr
  else do
    let b := readBs s oFileSkip 240
    let mx := fsize - szPage
    let pg ← checkAll mx ((List.range ranks).map fun i => read ((b.drop (8 * i)).take 8))
    let sl ← checkAll mx
      ((List.range slotRanks).map fun i => read ((b.drop (oSlotsInBuf + 8 * i)).take 8))
    .ok { pages := pg, slots := sl, dirty := false, fsize, store := s,
          allocs := 0, bytes := 0, npages := 0 }

/-- Allocator.Close of the source: flush the dirty header, then close the
backing store (a no-op on the model's store). -/
def close : AM Unit := flushA

deriving instance DecidableEq for Except

/-- An empty backing store. -/
def emptyStore : Store := ⟨0, []⟩

/-- The allocator returned by NewAllocator on an empty store (the zeroed
header has been written at offset 16). -/
def aOpen : Allocator :=
  { pages := List.replicate ranks 0, slots := List.replicate slotRanks 0,
    dirty := false, fsize := 0,
    store := writeBs emptyStore oFileSkip (List.replicate 240 0),
    allocs := 0, bytes := 0, npages := 0 }

/-- The allocator state after Alloc(10) on a freshly opened empty store;
the allocation lives at offset 304. -/
def aLive : Allocator := (alloc 10 aOpen).2

/-- Scenario of spec §8.1: open an empty store, Alloc(10), query
UsableSize(304), Free(304); collects the returned offset, the file size
after the allocation, the usable size, and the file size after the free. -/
def scenSingleSmall : Except Err (List Int) := do
  let a ← newAllocator emptyStore
  let (r, a1) := alloc 10 a
  let off ← r
  let (u, _) := usableSizeA 304 a1
  let n ← u
  let (fr, a2) := free 304 a1
  let _ ← fr
  .ok [off, a1.fsize, n, a2.fsize]

/-- Scenario of spec §8.3: open an empty store, Alloc(10000), then
Realloc(304, 5000); collects the first offset, the rank and size of the
page created by the big allocation, the realloc result, the shrunk page's
rank, size and tail word, the carved remainder page's rank, size and tail
word, and the head of pages[7]. -/
def scenLargeShrink : Except Err (List Int) := do
  let a ← newAllocator emptyStore
  let (r, a1) := alloc 10000 a
  let off1 ← r
  let (p0e, _) := openPage 256 a1
  let p0 ← p0e
  let (r2, a2) := realloc 304 5000 a1
  let off2 ← r2
  let (p1e, _) := openPage 256 a2
  let p1 ← p1e
  let (p2e, _) := openPage 8448 a2
  let p2 ← p2e
  .ok [off1, p0.rank, p0.size,
       off2, p1.rank, p1.size, readWord a2.store (256 + 8192 - szTail),
       p2.rank, p2.size, readWord a2.store (8448 + 4096 - szTail),
       getI a2.pages firstPageRank]

/-- Boundary scenario for one size: open an empty store, Alloc(size);
collects the returned offset, its usable size, and the rank and size of
the page at offset 256 that served it. -/
def scenBoundary (size : Int) : Except Err (List Int) := do
  let a ← newAllocator emptyStore
  let (r, a1) := alloc size a
  let off ← r
  let (u, _) := usableSizeA off a1
  let n ← u
  let (pe, _) := openPage 256 a1
  let p ← pe
  .ok [off, n, p.rank, p.size]

/-- C5: starting from an empty backing store, Alloc(10) returns offset
304 = szFile + szPage and leaves fsize = 4352; UsableSize(304) returns
16; a subsequent Free(304) truncates the store back to fsize = 256. -/
theorem single_small_alloc_scenario :
    scenSingleSmall = .ok [304, 4352, 16, 256] ∧ szFile + szPage = 304 := by
  constructor
  · decide
  · decide

/-- C6: from an empty store, Alloc(10000) creates an exclusive rank-9
page spanning 12288 bytes and returns offset 304; Realloc(304, 5000)
splits the page in place: it returns 304, the page shrinks to 8192 bytes
(rank 8) with tail word 0, and a free 4096-byte rank-7 page appears at
offset 8448, linked on pages[7], with tail word 4096. -/
theorem large_alloc_realloc_shrink_scenario :
    scenLargeShrink = .ok [304, 9, 12288, 304, 8, 8192, 0, 7, 4096, 4096, 8448] := by
  decide

/-- C7: size-class boundaries: Alloc(1) is served from a rank-0 shared
page with usable size exactly 16; Alloc(1024) from a rank-6 shared page
with usable size 1024; Alloc(1025) by an exclusive rank-7 page spanning
one 4096-byte page; and the rank helpers sit at exactly these
boundaries. -/
theorem size_class_boundaries :
    scenBoundary 1 = .ok [304, 16, 0, 4096] ∧
    scenBoundary 1024 = .ok [304, 1024, 6, 4096] ∧
    scenBoundary 1025 = .ok [304, 4040, 7, 4096] ∧
    slotRankE 1 = .ok 0 ∧ slotRankE 1024 = .ok 6 ∧
    pageRankE (roundup (szPage + 1025 + szTail) pageSize) = .ok 7 := by
  refine ⟨by decide, by decide, by decide, by decide, by decide, by decide⟩

/-- Dirty-flag update written by every flush of the source
(memNode.flush line 153, memPage.flush line 222, Allocator.flush line
745): the Go assignment is `m.dirty = err == nil`, with err the error of
the underlying WriteAt, so the flag records whether the write succeeded. -/
def flushDirtyAfter (dirty writeOk : Bool) : Bool :=
  if !dirty then dirty else writeOk

/-- C2: the source sets the dirty flag to true exactly when the write
succeeds — the opposite of the documented contract: after a successful
flush the object stays dirty (and is pointlessly rewritten forever), and
after a failed flush the flag is cleared, so the lost write is never
retried.  The model's MemNode.flush exhibits the successful-write case:
the flushed node keeps dirty = true. -/
theorem flush_dirty_flag_inverted :
    flushDirtyAfter true true = true ∧
    flushDirtyAfter true false = false ∧
    (MemNode.flush ⟨true, 304, 0, 0⟩ aOpen).1 = .ok ⟨true, 304, 0, 0⟩ := by
  refine ⟨rfl, rfl, by decide⟩

@[simp]
theorem AM.bind_apply {α β : Type} (x : AM α) (f : α → AM β) (a : Allocator) :
    (x >>= f) a =
      match x a with
      | (.ok v, a') => f v a'
      | (.error e, a') => (.error e, a') := rfl

@[simp]
theorem AM.pure_apply {α : Type} (v : α) (a : Allocator) :
    (pure v : AM α) a = (.ok v, a) := rfl

@[simp]
theorem throwE_apply {α : Type} (e : Err) (a : Allocator) :
    (throwE e : AM α) a = (.error e, a) := rfl

@[simp]
theorem liftE_apply {α : Type} (x : Except Err α) (a : Allocator) :
    liftE x a = (x, a) := rfl

@[simp]
theorem getS_apply (a : Allocator) : getS a = (.ok a, a) := rfl

@[simp]
theorem modifyS_apply (f : Allocator → Allocator) (a : Allocator) :
    modifyS f a = (.ok (), f a) := rfl

/-- The usableSize guard: an offset below szFile + szPage is rejected, so
a successful usableSize implies the offset is in range. -/
theorem usableSize_ok_off_ge {a : Allocator} {off n : Int} {p : MemPage} {a' : Allocator}
    (h : usableSize off a = (.ok (n, p), a')) : szFile + szPage ≤ off := by
  by_contra hlt
  push_neg at hlt
  simp only [usableSize, if_pos hlt, throwE_apply, Prod.mk.injEq] at h
  exact absurd h.1 (by simp)

/-- C4 counterexample: with the live allocation at offset 304 produced by
Alloc(10) on a fresh store, Realloc(304, -1) does not return an
invalid-argument error — it trips the slotRank internal panic instead. -/
theorem realloc_negative_not_invalid_arg :
    (alloc 10 aOpen).1 = .ok 304 ∧
    (realloc 304 (-1) aLive).1 = .error .internal ∧
    (realloc 304 (-1) aLive).1 ≠ .error .invalidArg := by
  refine ⟨by decide, by decide, by decide⟩

/-- C4 as amended: Alloc and Calloc reject every size ≤ 0 with an
invalid-argument error and untouched state; Realloc at a valid live
offset with size < 0 also fails with untouched state, but through the
slotRank internal-error panic rather than an invalid-argument error. -/
theorem nonpositive_size_errors (a : Allocator) (size : Int) (hsz : size ≤ 0) :
    alloc size a = (.error .invalidArg, a) ∧
    calloc size a = (.error .invalidArg, a) ∧
    (∀ off n p, size < 0 → 0 ≤ n →
      usableSize off a = (.ok (n, p), a) →
      realloc off size a = (.error .internal, a)) := by
  have halloc : alloc size a = (.error .invalidArg, a) := by
    simp [alloc, if_pos hsz]
  refine ⟨halloc, ?_, ?_⟩
  · simp [calloc, halloc]
  · intro off n p hneg hn husable
    have hge : szFile + szPage ≤ off := usableSize_ok_off_ge husable
    have h1 : ¬ (off < szFile + szPage) := by omega
    have h2 : ¬ (size = 0) := by omega
    have h3 : n ≥ size := by omega
    have h4 : size ≤ maxSlot := by simp [maxSlot]; omega
    have h5 : size < 1 ∨ size > 1024 := by left; omega
    simp [realloc, if_neg h1, if_neg h2, husable, if_pos h3, rankE, if_pos h4,
      slotRankE, if_pos h5]

/-- The page containing the offset-304 allocation of aLive. -/
def pLive : MemPage :=
  { dirty := false, off := 256, brk := 1, prev := 0, next := 0,
    rank := 0, size := 4096, used := 1 }

/-- Witness for the amended C4 theorem at the concrete live state. -/
theorem nonpositive_size_errors_witness :
    alloc (-1) aLive = (.error .invalidArg, aLive) ∧
    realloc 304 (-1) aLive = (.error .internal, aLive) :=
  ⟨(nonpositive_size_errors aLive (-1) (by decide)).1,
   (nonpositive_size_errors aLive (-1) (by decide)).2.2 304 16 pLive (by decide)
     (by decide) (by decide)⟩

/-- C9: for every off at least szFile + szPage, Realloc(off, 0) performs
exactly Free(off) on the allocator state: the final states agree, a
successful free yields the sentinel offset -1 with no error, and a failed
free propagates the same error. -/
theorem realloc_zero_is_free (a : Allocator) (off : Int) (h : szFile + szPage ≤ off) :
    (realloc off 0 a).2 = (free off a).2 ∧
    (∀ a', free off a = (.ok (), a') → realloc off 0 a = (.ok (-1), a')) ∧
    (∀ e a', free off a = (.error e, a') → realloc off 0 a = (.error e, a')) := by
  have h1 : ¬ (off < szFile + szPage) := by omega
  rcases hfree : free off a with ⟨r, a2⟩
  have hre : realloc off 0 a =
      (match r with | .ok _ => (.ok (-1), a2) | .error e => (.error e, a2)) := by
    simp [realloc, if_neg h1, hfree]
    rcases r with e | v <;> simp
  rcases r with e | v
  · exact ⟨by simp [hre], fun a' hcontra => by simp_all, fun e' a' heq => by
      simp [hre]; cases heq; simp⟩
  · exact ⟨by simp [hre], fun a' heq => by cases heq; simp [hre], fun e' a' hcontra => by
      simp_all⟩

/-- Witness for C9 at the live allocation: the free succeeds and
Realloc(304, 0) returns the sentinel -1 in the freed state. -/
theorem realloc_zero_is_free_witness :
    realloc 304 0 aLive = (.ok (-1), (free 304 aLive).2) :=
  (realloc_zero_is_free aLive 304 (by decide)).2.1 _ (by decide)


theorem readBs_length (s : Store) (o : Int) (n : Nat) : (readBs s o n).length = n := by
  induction n generalizing o with
  | zero => rfl
  | succ m ih => simp [readBs, ih]

theorem readBs_add (s : Store) (o : Int) (m n : Nat) :
    readBs s o (m + n) = readBs s o m ++ readBs s (o + m) n := by
  induction m generalizing o with
  | zero => simp [readBs]
  | succ k ih =>
    rw [show (o + ((k:Nat) + 1 : Nat) : Int) = (o + 1) + (k : Nat) by push_cast; ring]
    rw [show k + 1 + n = (k + n) + 1 by omega]
    simp only [readBs, ih (o + 1), List.cons_append]

theorem readBs_take_drop (s : Store) (o : Int) (k n : Nat) (h : k + 8 ≤ n) :
    ((readBs s o n).drop k).take 8 = readBs s (o + k) 8 := by
  have hn : n = k + (8 + (n - k - 8)) := by omega
  rw [hn, readBs_add, readBs_add]
  rw [List.drop_left' (readBs_length s o k)]
  rw [List.take_left' (readBs_length s (o + k) 8)]

theorem readBs_take (s : Store) (o : Int) (n : Nat) (h : 8 ≤ n) :
    (readBs s o n).take 8 = readBs s o 8 := by
  have h0 := readBs_take_drop s o 0 n (by omega)
  simpa using h0

/-- The in-memory page image decoded from the 48 header bytes at o, as
openPage reads it. -/
def pageAtM (s : Store) (o : Int) : MemPage :=
  { dirty := false, off := o,
    brk := readWord s o, prev := readWord s (o + 8), next := readWord s (o + 16),
    rank := readWord s (o + 24), size := readWord s (o + 32), used := readWord s (o + 40) }

/-- The in-memory node image decoded from the 16 bytes at o, as openNode
reads it. -/
def nodeAtM (s : Store) (o : Int) : MemNode :=
  { dirty := false, off := o, prev := readWord s o, next := readWord s (o + 8) }

theorem openPage_eq (off : Int) (a : Allocator) :
    openPage off a =
      if 0 ≤ off ∧ off + 48 ≤ a.store.size
      then (.ok (pageAtM a.store off), a)
      else (.error .ioErr, a) := by
  have t0 := readBs_take a.store off 48 (by omega)
  have t1 := readBs_take_drop a.store off 8 48 (by omega)
  have t2 := readBs_take_drop a.store off 16 48 (by omega)
  have t3 := readBs_take_drop a.store off 24 48 (by omega)
  have t4 := readBs_take_drop a.store off 32 48 (by omega)
  have t5 := readBs_take_drop a.store off 40 48 (by omega)
  simp only [openPage, readAt, AM.bind_apply, AM.pure_apply, Nat.cast_ofNat]
  by_cases h : 0 ≤ off ∧ off + 48 ≤ a.store.size
  · rw [if_pos h, if_pos h]
    dsimp only
    rw [t0, t1, t2, t3, t4, t5]
    norm_num [pageAtM, readWord]
  · rw [if_neg h, if_neg h]

theorem openNode_eq (off : Int) (a : Allocator) :
    openNode off a =
      if 0 ≤ off ∧ off + 16 ≤ a.store.size
      then (.ok (nodeAtM a.store off), a)
      else (.error .ioErr, a) := by
  have t0 := readBs_take a.store off 16 (by omega)
  have t1 := readBs_take_drop a.store off 8 16 (by omega)
  simp only [openNode, readAt, AM.bind_apply, AM.pure_apply, Nat.cast_ofNat]
  by_cases h : 0 ≤ off ∧ off + 16 ≤ a.store.size
  · rw [if_pos h, if_pos h]
    dsimp only
    rw [t0, t1]
    norm_num [nodeAtM, readWord]
  · rw [if_neg h, if_neg h]

theorem usableSize_ok_inv {a a' : Allocator} {off n : Int} {p : MemPage}
    (hu : usableSize off a = (.ok (n, p), a')) :
    a' = a ∧ p = pageAtM a.store (alignPage off) ∧
    0 ≤ p.rank ∧ p.rank < (ranks : Int) ∧
    (p.rank ≤ (maxSharedRank : Int) → n = 2 ^ (p.rank + 4).toNat) ∧
    ((maxSharedRank : Int) < p.rank → n = p.size - szPage - szTail) := by
  have hoff := usableSize_ok_off_ge hu
  have h1 : ¬ (off < szFile + szPage) := by omega
  simp only [usableSize, if_neg h1, AM.bind_apply, openPage_eq] at hu
  by_cases hb : 0 ≤ alignPage off ∧ alignPage off + 48 ≤ a.store.size
  · rw [if_pos hb] at hu
    dsimp only at hu
    split at hu
    next hg => simp [throwE] at hu
    next hg =>
      push_neg at hg
      split at hu
      next hsh =>
        simp only [AM.pure_apply, Prod.mk.injEq, Except.ok.injEq] at hu
        obtain ⟨⟨hn, hp⟩, ha⟩ := hu
        subst hp
        exact ⟨ha.symm, rfl, hg.1, hg.2, fun _ => hn.symm, fun hc => absurd hsh (by omega)⟩
      next hsh =>
        simp only [AM.pure_apply, Prod.mk.injEq, Except.ok.injEq] at hu
        obtain ⟨⟨hn, hp⟩, ha⟩ := hu
        subst hp
        exact ⟨ha.symm, rfl, hg.1, hg.2, fun hc => absurd hc (by omega), fun _ => hn.symm⟩
  · rw [if_neg hb] at hu
    simp [throwE] at hu

theorem realloc_usable_size_identity (a : Allocator) (off n : Int) (p : MemPage)
    (hu : usableSize off a = (.ok (n, p), a))
    (hx : (maxSharedRank : Int) < p.rank →
      pageSize ≤ p.size ∧ p.size % pageSize = 0 ∧ pageRankE p.size = .ok p.rank.toNat) :
    realloc off n a = (.ok off, a) := by
  obtain ⟨-, hpdef, hr0, hr23, hsh, hex⟩ := usableSize_ok_inv hu
  have hoff := usableSize_ok_off_ge hu
  have h1 : ¬ (off < szFile + szPage) := by omega
  have key : rankE n = .ok p.rank.toNat ∧ 0 < n := by
    rcases le_or_lt p.rank (maxSharedRank : Int) with hc | hc
    · have hn := hsh hc
      have hc6 : p.rank ≤ 6 := by norm_num [maxSharedRank, slotRanks] at hc; omega
      refine ⟨?_, by rw [hn]; positivity⟩
      have h7 : p.rank.toNat < 7 := by omega
      have hall : ∀ r : Nat, r < 7 → rankE ((2:Int) ^ (r + 4)) = .ok r := by decide
      have ht : ((p.rank + 4).toNat) = p.rank.toNat + 4 := by omega
      rw [hn, ht]
      exact hall _ h7
    · have hn := hex hc
      obtain ⟨hps, hpm, hpr⟩ := hx hc
      have hps' : (4096 : Int) ≤ p.size := by norm_num [pageSize] at hps; omega
      have hn' : n = p.size - 56 := by norm_num [szPage, szTail] at hn; omega
      have hn1024 : ¬ (n ≤ maxSlot) := by norm_num [maxSlot]; omega
      have hsz1024 : ¬ (p.size ≤ maxSlot) := by norm_num [maxSlot]; omega
      refine ⟨?_, by omega⟩
      have hround : roundup n pageSize = roundup p.size pageSize := by
        have hpm' : p.size % 4096 = 0 := by norm_num [pageSize] at hpm; omega
        simp only [roundup, andn, pageSize]
        omega
      rw [rankE, if_neg hn1024]
      rw [show pageRankE n = pageRankE p.size by
        rw [pageRankE, pageRankE, if_neg hn1024, if_neg hsz1024, hround]]
      exact hpr
  obtain ⟨hrr, hnpos⟩ := key
  have hn0 : ¬ (n = 0) := by omega
  have htn : (p.rank.toNat : Int) = p.rank := Int.toNat_of_nonneg hr0
  simp only [realloc, if_neg h1, if_neg hn0, AM.bind_apply, hu, liftE_apply, hrr]
  simp only [ge_iff_le, le_refl, if_true]
  simp only [AM.bind_apply, liftE_apply]
  rw [if_pos htn.symm]
  simp only [AM.pure_apply]

/-- Witness for C8 at the live allocation of aLive: the block at 304 has
usable size 16 and Realloc(304, 16) returns it unchanged with identical
state. -/
theorem realloc_usable_size_identity_witness :
    usableSize 304 aLive = (.ok (16, pLive), aLive) ∧
    realloc 304 16 aLive = (.ok 304, aLive) :=
  ⟨by decide,
   realloc_usable_size_identity aLive 304 16 pLive (by decide) (by decide)⟩

theorem checkAll_ok (mx : Int) (l : List Int) (h : ∀ x ∈ l, 0 ≤ x ∧ x ≤ mx) :
    checkAll mx l = .ok l := by
  induction l with
  | nil => rfl
  | cons x xs ih =>
    have hx := h x (by simp)
    have hrest := ih fun y hy => h y (by simp [hy])
    simp only [checkAll, check, if_neg (by omega : ¬ (x < 0 ∨ x > mx)), hrest]
    rfl

theorem checkAll_err (mx : Int) (l : List Int) (h : ∃ x ∈ l, ¬ (0 ≤ x ∧ x ≤ mx)) :
    checkAll mx l = .error .corrupt := by
  induction l with
  | nil => simp at h
  | cons x xs ih =>
    by_cases hx : 0 ≤ x ∧ x ≤ mx
    · have hrest : ∃ y ∈ xs, ¬ (0 ≤ y ∧ y ≤ mx) := by
        rcases h with ⟨y, hy, hbad⟩
        rcases List.mem_cons.mp hy with rfl | hmem
        · exact absurd hx hbad
        · exact ⟨y, hmem, hbad⟩
      simp only [checkAll, check, if_neg (by omega : ¬ (x < 0 ∨ x > mx)), ih hrest]
      rfl
    · simp only [checkAll, check, if_pos (by omega : x < 0 ∨ x > mx)]
      rfl

/-- The record produced by the zero-header branch of NewAllocator. -/
def freshAllocator (s : Store) : Allocator :=
  { pages := List.replicate ranks 0, slots := List.replicate slotRanks 0,
    dirty := false, fsize := s.size,
    store := writeBs s oFileSkip (List.replicate 240 0),
    allocs := 0, bytes := 0, npages := 0 }

/-- The record produced by the read-and-validate branch of NewAllocator. -/
def loadedAllocator (s : Store) : Allocator :=
  { pages := (List.range ranks).map fun i : Nat => readWord s (oFileSkip + 8 * (i : Int)),
    slots := (List.range slotRanks).map fun i : Nat => readWord s (oFileSkip + (oSlotsInBuf : Int) + 8 * (i : Int)),
    dirty := false, fsize := s.size, store := s,
    allocs := 0, bytes := 0, npages := 0 }

/-- C1 as amended: the zero-header branch of NewAllocator requires the
store length to be at most oFileSkip = 16 (not 256): such stores get the
zeroed 240-byte list-head area written at offset 16; a store of length in
(16, 256) fails the open with a short-read I/O error; a store of length
at least 256 has its 30 list heads (23 page heads then 7 slot heads) read
from offset 16 and validated: the open succeeds with exactly those heads
when every head lies in [0, fsize - szPage], and fails with a corrupt
error when some head lies outside that range. -/
theorem newAllocator_open_behavior (s : Store) :
    (s.size ≤ oFileSkip → newAllocator s = .ok (freshAllocator s)) ∧
    (oFileSkip < s.size → s.size < szFile → newAllocator s = .error .ioErr) ∧
    (szFile ≤ s.size →
      ((∀ i : Nat, i < 30 → 0 ≤ readWord s (oFileSkip + 8 * i) ∧
          readWord s (oFileSkip + 8 * i) ≤ s.size - szPage) →
        newAllocator s = .ok (loadedAllocator s)) ∧
      ((∃ i : Nat, i < 30 ∧ ¬ (0 ≤ readWord s (oFileSkip + 8 * i) ∧
          readWord s (oFileSkip + 8 * i) ≤ s.size - szPage)) →
        newAllocator s = .error .corrupt)) := by
  refine ⟨?_, ?_, ?_⟩
  · intro h
    simp only [newAllocator, if_pos h, freshAllocator]
  · intro h1 h2
    rw [newAllocator, if_neg (by omega), if_pos (by norm_num [oFileSkip, szFile] at *; omega)]
  · intro hsz
    have h1 : ¬ (s.size ≤ oFileSkip) := by norm_num [oFileSkip, szFile] at *; omega
    have h2 : ¬ ¬ (oFileSkip + 240 ≤ s.size) := by norm_num [oFileSkip, szFile] at *; omega
    -- decoded page heads are the readWord values
    have hpg : ((List.range ranks).map fun i =>
          read (((readBs s oFileSkip 240).drop (8 * i)).take 8)) =
        (List.range ranks).map fun i : Nat => readWord s (oFileSkip + 8 * (i : Int)) := by
      apply List.map_congr_left
      intro i hi
      have hi23 : i < 23 := by simpa [ranks] using hi
      rw [readBs_take_drop s oFileSkip (8 * i) 240 (by omega)]
      rw [readWord]
      norm_num
    have hsl : ((List.range slotRanks).map fun i =>
          read (((readBs s oFileSkip 240).drop (oSlotsInBuf + 8 * i)).take 8)) =
        (List.range slotRanks).map fun i : Nat =>
          readWord s (oFileSkip + (oSlotsInBuf : Int) + 8 * (i : Int)) := by
      apply List.map_congr_left
      intro i hi
      have hi7 : i < 7 := by simpa [slotRanks] using hi
      rw [readBs_take_drop s oFileSkip (oSlotsInBuf + 8 * i) 240 (by norm_num [oSlotsInBuf]; omega)]
      rw [readWord]
      norm_num [oSlotsInBuf]
      ring_nf
    simp only [newAllocator, if_neg h1, if_neg h2]
    rw [hpg, hsl]
    constructor
    · intro hall
      have hpok : checkAll (s.size - szPage)
          ((List.range ranks).map fun i : Nat => readWord s (oFileSkip + 8 * (i : Int))) =
          .ok ((List.range ranks).map fun i : Nat => readWord s (oFileSkip + 8 * (i : Int))) := by
        apply checkAll_ok
        intro x hx
        rcases List.mem_map.mp hx with ⟨i, hi, rfl⟩
        have : i < 23 := by simpa [ranks] using hi
        exact hall i (by omega)
      have hsok : checkAll (s.size - szPage)
          ((List.range slotRanks).map fun i : Nat =>
            readWord s (oFileSkip + (oSlotsInBuf : Int) + 8 * (i : Int))) =
          .ok ((List.range slotRanks).map fun i : Nat =>
            readWord s (oFileSkip + (oSlotsInBuf : Int) + 8 * (i : Int))) := by
        apply checkAll_ok
        intro x hx
        rcases List.mem_map.mp hx with ⟨i, hi, rfl⟩
        have hi7 : i < 7 := by simpa [slotRanks] using hi
        have harith : oFileSkip + (oSlotsInBuf : Int) + 8 * (i : Int) =
            oFileSkip + 8 * ((23 + i : Nat) : Int) := by
          norm_num [oFileSkip, oSlotsInBuf]
          ring
        rw [harith]
        exact hall (23 + i) (by omega)
      rw [hpok, hsok]
      rfl
    · intro hbad
      by_cases hp : ∀ x ∈ (List.range ranks).map
          (fun i : Nat => readWord s (oFileSkip + 8 * (i : Int))),
          0 ≤ x ∧ x ≤ s.size - szPage
      · have hpok := checkAll_ok (s.size - szPage) _ hp
        rw [hpok]
        have hserr : checkAll (s.size - szPage)
            ((List.range slotRanks).map fun i : Nat =>
              readWord s (oFileSkip + (oSlotsInBuf : Int) + 8 * (i : Int))) =
            .error .corrupt := by
          apply checkAll_err
          rcases hbad with ⟨i, hi30, hbadi⟩
          have hi23 : ¬ (i < 23) := by
            intro hlt
            exact hbadi (hp _ (List.mem_map.mpr ⟨i, List.mem_range.mpr (by simpa [ranks] using hlt), rfl⟩))
          refine ⟨readWord s (oFileSkip + 8 * (i : Int)), ?_, hbadi⟩
          apply List.mem_map.mpr
          refine ⟨i - 23, List.mem_range.mpr (by simp [slotRanks]; omega), ?_⟩
          have harith : oFileSkip + (oSlotsInBuf : Int) + 8 * ((i - 23 : Nat) : Int) =
              oFileSkip + 8 * (i : Int) := by
            norm_num [oFileSkip, oSlotsInBuf]
            have : ((i - 23 : Nat) : Int) = (i : Int) - 23 := by omega
            rw [this]
            ring
          rw [harith]
        rw [hserr]
        rfl
      · push_neg at hp
        have hperr : checkAll (s.size - szPage)
            ((List.range ranks).map fun i : Nat =>
              readWord s (oFileSkip + 8 * (i : Int))) = .error .corrupt := by
          apply checkAll_err
          rcases hp with ⟨x, hx, hbadx⟩
          exact ⟨x, hx, fun hc => absurd (hbadx hc.1) (not_lt.mpr hc.2)⟩
        rw [hperr]
        rfl

/-- C1 counterexample: a 100-byte store has length at most 256, yet
NewAllocator does not initialize it with a zeroed header as the claim
states: it takes the read branch (the threshold is oFileSkip = 16), the
240-byte header read comes up short, and the open fails. -/
theorem newAllocator_mid_size_store_fails :
    newAllocator ⟨100, []⟩ = .error .ioErr ∧ (100 : Int) ≤ 256 :=
  ⟨by decide, by decide⟩

/-- Witness for the amended C1 theorem: the empty store takes the
zero-header branch; an all-zero 300-byte store passes validation. -/
theorem newAllocator_open_behavior_witness :
    newAllocator emptyStore = .ok (freshAllocator emptyStore) ∧
    newAllocator ⟨300, []⟩ = .ok (loadedAllocator ⟨300, []⟩) :=
  ⟨(newAllocator_open_behavior emptyStore).1 (by decide),
   ((newAllocator_open_behavior ⟨300, []⟩).2.2 (by decide)).1 (by decide)⟩

theorem lookup_writeEntries (bs : List Int) (o o' : Int) (mem : List (Int × Int)) :
    List.lookup o' (writeEntries o bs ++ mem) =
      if o ≤ o' ∧ o' < o + bs.length then some (bs.getD (o' - o).toNat 0)
      else List.lookup o' mem := by
  induction bs generalizing o with
  | nil =>
    simp only [writeEntries, List.nil_append, List.length_nil, Nat.cast_zero, add_zero]
    rw [if_neg (by omega)]
  | cons b rest ih =>
    simp only [writeEntries, List.cons_append, List.lookup]
    by_cases he : o' = o
    · subst he
      rw [if_pos (by simp only [List.length_cons]; push_cast; omega)]
      have : (o' - o').toNat = 0 := by omega
      simp [this, List.getD]
    · have hbeq : (o' == o) = false := by simp [he]
      rw [hbeq]
      simp only [cond_false, List.append_eq]
      rw [ih (o + 1)]
      by_cases hin : o + 1 ≤ o' ∧ o' < o + 1 + rest.length
      · rw [if_pos hin, if_pos (by simp only [List.length_cons] at *; push_cast at *; omega)]
        have : (o' - o).toNat = (o' - (o + 1)).toNat + 1 := by omega
        simp [this, List.getD]
      · rw [if_neg hin, if_neg (by simp only [List.length_cons] at *; push_cast at *; omega)]

theorem readByte_writeBs (s : Store) (o : Int) (bs : List Int) (o' : Int) :
    readByte (writeBs s o bs) o' =
      if o ≤ o' ∧ o' < o + bs.length then bs.getD (o' - o).toNat 0
      else readByte s o' := by
  rcases bs with _ | ⟨b, rest⟩
  · simp only [writeBs, List.isEmpty_nil, if_true, List.length_nil, Nat.cast_zero, add_zero]
    rw [if_neg (by omega)]
  · simp only [writeBs, List.isEmpty_cons, Bool.false_eq_true, if_false, readByte]
    rw [lookup_writeEntries]
    split
    · simp
    · rfl

theorem readBs_writeBs_out (s : Store) (o : Int) (bs : List Int) (o' : Int) (n : Nat)
    (h : o' + n ≤ o ∨ o + bs.length ≤ o') :
    readBs (writeBs s o bs) o' n = readBs s o' n := by
  induction n generalizing o' with
  | zero => rfl
  | succ m ih =>
    simp only [readBs]
    rw [readByte_writeBs, if_neg (by push_cast at *; omega), ih (o' + 1) (by push_cast at *; omega)]

theorem readBs_writeBs_in (s : Store) (o : Int) (bs : List Int) (k n : Nat)
    (h : k + n ≤ bs.length) :
    readBs (writeBs s o bs) (o + k) n = (bs.drop k).take n := by
  induction n generalizing k with
  | zero => simp [readBs]
  | succ m ih =>
    simp only [readBs]
    rw [readByte_writeBs, if_pos (by omega)]
    have h1 : ((o + k) - o).toNat = k := by omega
    have h2 : (o + (k : Int)) + 1 = o + ((k + 1 : Nat) : Int) := by push_cast; ring
    rw [h1, h2, ih (k + 1) (by omega)]
    rcases hd : bs.drop k with _ | ⟨x, xs⟩
    · exfalso
      have hlen := List.length_drop k bs
      rw [hd] at hlen
      simp at hlen
      omega
    · have h3 : bs.getD k 0 = x := by
        rw [List.getD_eq_getElem?_getD]
        have hx : bs[k]? = (bs.drop k)[0]? := by
          rw [List.getElem?_drop]
          norm_num
        rw [hx, hd]
        simp
      have h4 : bs.drop (k + 1) = xs := by
        have hx : bs.drop (k + 1) = (bs.drop k).drop 1 := by
          rw [List.drop_drop]
        rw [hx, hd]
        simp
      rw [h3, h4]
      simp

theorem readBs_writeBs_in0 (s : Store) (o : Int) (bs : List Int) (n : Nat)
    (h : n ≤ bs.length) :
    readBs (writeBs s o bs) o n = bs.take n := by
  have := readBs_writeBs_in s o bs 0 n (by omega)
  simpa using this

theorem writeBs_size_le (s : Store) (o : Int) (bs : List Int) :
    s.size ≤ (writeBs s o bs).size := by
  rcases bs with _ | ⟨b, rest⟩
  · simp [writeBs]
  · simp [writeBs]

theorem writeBs_size_ge (s : Store) (o : Int) (bs : List Int) (h : bs ≠ []) :
    o + bs.length ≤ (writeBs s o bs).size := by
  rcases bs with _ | ⟨b, rest⟩
  · simp at h
  · simp [writeBs]

theorem write_explicit (v : Int) :
    write v = [Int.fdiv v (2 ^ 56) % 256, Int.fdiv v (2 ^ 48) % 256,
      Int.fdiv v (2 ^ 40) % 256, Int.fdiv v (2 ^ 32) % 256,
      Int.fdiv v (2 ^ 24) % 256, Int.fdiv v (2 ^ 16) % 256,
      Int.fdiv v (2 ^ 8) % 256, Int.fdiv v (2 ^ 0) % 256] := by
  rfl

theorem read_write_id (v : Int) (h1 : -(2 ^ 63) ≤ v) (h2 : v < 2 ^ 63) :
    read (write v) = v := by
  rw [write_explicit, read]
  simp only [List.take, List.foldl]
  have e56 : Int.fdiv v (2 ^ 56) = v / 2 ^ 56 := Int.fdiv_eq_ediv v (by positivity)
  have e48 : Int.fdiv v (2 ^ 48) = v / 2 ^ 48 := Int.fdiv_eq_ediv v (by positivity)
  have e40 : Int.fdiv v (2 ^ 40) = v / 2 ^ 40 := Int.fdiv_eq_ediv v (by positivity)
  have e32 : Int.fdiv v (2 ^ 32) = v / 2 ^ 32 := Int.fdiv_eq_ediv v (by positivity)
  have e24 : Int.fdiv v (2 ^ 24) = v / 2 ^ 24 := Int.fdiv_eq_ediv v (by positivity)
  have e16 : Int.fdiv v (2 ^ 16) = v / 2 ^ 16 := Int.fdiv_eq_ediv v (by positivity)
  have e8 : Int.fdiv v (2 ^ 8) = v / 2 ^ 8 := Int.fdiv_eq_ediv v (by positivity)
  have e0 : Int.fdiv v (2 ^ 0) = v := by
    rw [Int.fdiv_eq_ediv v (by norm_num)]
    simp
  rw [e56, e48, e40, e32, e24, e16, e8, e0]
  rw [wrap64]
  omega

/-- Signed 64-bit range, the values an int64 field can hold. -/
def InRange64 (v : Int) : Prop := -(2 ^ 63) ≤ v ∧ v < 2 ^ 63

theorem wrap64_range (x : Int) : InRange64 (wrap64 x) := by
  unfold InRange64 wrap64
  have h1 := Int.emod_nonneg (x + 2 ^ 63) (show ((2:Int) ^ 64) ≠ 0 by norm_num)
  have h2 := Int.emod_lt_of_pos (x + 2 ^ 63) (show (0:Int) < 2 ^ 64 by norm_num)
  constructor <;> omega

theorem readWord_range (s : Store) (o : Int) : InRange64 (readWord s o) :=
  wrap64_range _

theorem read_write_id' (v : Int) (h : InRange64 v) : read (write v) = v :=
  read_write_id v h.1 h.2

theorem readWord_writeBs_out (s : Store) (o : Int) (bs : List Int) (o' : Int)
    (h : o' + 8 ≤ o ∨ o + bs.length ≤ o') :
    readWord (writeBs s o bs) o' = readWord s o' := by
  unfold readWord
  rw [readBs_writeBs_out s o bs o' 8 (by push_cast at *; omega)]

theorem pageAtM_writeBs_out (s : Store) (o : Int) (bs : List Int) (o' : Int)
    (h : o' + 48 ≤ o ∨ o + bs.length ≤ o') :
    pageAtM (writeBs s o bs) o' = pageAtM s o' := by
  unfold pageAtM
  rw [readWord_writeBs_out s o bs o' (by omega),
      readWord_writeBs_out s o bs (o' + 8) (by omega),
      readWord_writeBs_out s o bs (o' + 16) (by omega),
      readWord_writeBs_out s o bs (o' + 24) (by omega),
      readWord_writeBs_out s o bs (o' + 32) (by omega),
      readWord_writeBs_out s o bs (o' + 40) (by omega)]

theorem write_length (v : Int) : (write v).length = 8 := rfl

theorem pageBytes_length (m : MemPage) : (pageBytes m).length = 48 := by
  simp [pageBytes, write_length]

theorem nodeBytes_length (m : MemNode) : (nodeBytes m).length = 16 := by
  simp [nodeBytes, write_length]

theorem drop8_write (v : Int) (l : List Int) (k : Nat) :
    (write v ++ l).drop (8 + k) = l.drop k := by
  rw [← List.drop_drop, List.drop_left' (write_length v)]

theorem pageBytes_slice (m : MemPage) :
    (pageBytes m).take 8 = write m.brk ∧
    ((pageBytes m).drop 8).take 8 = write m.prev ∧
    ((pageBytes m).drop 16).take 8 = write m.next ∧
    ((pageBytes m).drop 24).take 8 = write m.rank ∧
    ((pageBytes m).drop 32).take 8 = write m.size ∧
    ((pageBytes m).drop 40).take 8 = write m.used := by
  unfold pageBytes
  simp only [List.append_assoc]
  refine ⟨?_, ?_, ?_, ?_, ?_, ?_⟩
  · rw [List.take_left' (write_length _)]
  · rw [show (8:Nat) = 8 + 0 by rfl, drop8_write, List.drop_zero,
      List.take_left' (write_length _)]
  · rw [show (16:Nat) = 8 + 8 by rfl, drop8_write,
      show (8:Nat) = 8 + 0 by rfl, drop8_write, List.drop_zero,
      List.take_left' (write_length _)]
  · rw [show (24:Nat) = 8 + 16 by rfl, drop8_write,
      show (16:Nat) = 8 + 8 by rfl, drop8_write,
      show (8:Nat) = 8 + 0 by rfl, drop8_write, List.drop_zero,
      List.take_left' (write_length _)]
  · rw [show (32:Nat) = 8 + 24 by rfl, drop8_write,
      show (24:Nat) = 8 + 16 by rfl, drop8_write,
      show (16:Nat) = 8 + 8 by rfl, drop8_write,
      show (8:Nat) = 8 + 0 by rfl, drop8_write, List.drop_zero,
      List.take_left' (write_length _)]
  · rw [show (40:Nat) = 8 + 32 by rfl, drop8_write,
      show (32:Nat) = 8 + 24 by rfl, drop8_write,
      show (24:Nat) = 8 + 16 by rfl, drop8_write,
      show (16:Nat) = 8 + 8 by rfl, drop8_write,
      show (8:Nat) = 8 + 0 by rfl, drop8_write, List.drop_zero]
    exact List.take_of_length_le (by rw [write_length])

theorem nodeBytes_slice (m : MemNode) :
    (nodeBytes m).take 8 = write m.prev ∧
    ((nodeBytes m).drop 8).take 8 = write m.next := by
  unfold nodeBytes
  refine ⟨List.take_left' (write_length _), ?_⟩
  rw [show (8:Nat) = 8 + 0 by rfl, drop8_write, List.drop_zero]
  exact List.take_of_length_le (by rw [write_length] <;> omega)

theorem pageAtM_flush_self (s : Store) (o : Int) (m : MemPage)
    (h1 : InRange64 m.brk) (h2 : InRange64 m.prev) (h3 : InRange64 m.next)
    (h4 : InRange64 m.rank) (h5 : InRange64 m.size) (h6 : InRange64 m.used) :
    pageAtM (writeBs s o (pageBytes m)) o =
      { dirty := false, off := o, brk := m.brk, prev := m.prev, next := m.next,
        rank := m.rank, size := m.size, used := m.used } := by
  obtain ⟨t0, t1, t2, t3, t4, t5⟩ := pageBytes_slice m
  have r0 : readBs (writeBs s o (pageBytes m)) o 8 = write m.brk := by
    have h := readBs_writeBs_in s o (pageBytes m) 0 8 (by rw [pageBytes_length] <;> omega)
    rw [List.drop_zero, t0] at h
    simpa using h
  have r1 : readBs (writeBs s o (pageBytes m)) (o + 8) 8 = write m.prev := by
    have h := readBs_writeBs_in s o (pageBytes m) 8 8 (by rw [pageBytes_length] <;> omega)
    rw [t1] at h
    simpa using h
  have r2 : readBs (writeBs s o (pageBytes m)) (o + 16) 8 = write m.next := by
    have h := readBs_writeBs_in s o (pageBytes m) 16 8 (by rw [pageBytes_length] <;> omega)
    rw [t2] at h
    simpa using h
  have r3 : readBs (writeBs s o (pageBytes m)) (o + 24) 8 = write m.rank := by
    have h := readBs_writeBs_in s o (pageBytes m) 24 8 (by rw [pageBytes_length] <;> omega)
    rw [t3] at h
    simpa using h
  have r4 : readBs (writeBs s o (pageBytes m)) (o + 32) 8 = write m.size := by
    have h := readBs_writeBs_in s o (pageBytes m) 32 8 (by rw [pageBytes_length] <;> omega)
    rw [t4] at h
    simpa using h
  have r5 : readBs (writeBs s o (pageBytes m)) (o + 40) 8 = write m.used := by
    have h := readBs_writeBs_in s o (pageBytes m) 40 8 (by rw [pageBytes_length] <;> omega)
    rw [t5] at h
    simpa using h
  unfold pageAtM readWord
  rw [r0, r1, r2, r3, r4, r5, read_write_id' _ h1, read_write_id' _ h2,
    read_write_id' _ h3, read_write_id' _ h4, read_write_id' _ h5, read_write_id' _ h6]

theorem nodeAtM_flush_self (s : Store) (o : Int) (m : MemNode)
    (h1 : InRange64 m.prev) (h2 : InRange64 m.next) :
    nodeAtM (writeBs s o (nodeBytes m)) o =
      { dirty := false, off := o, prev := m.prev, next := m.next } := by
  obtain ⟨t0, t1⟩ := nodeBytes_slice m
  have r0 : readBs (writeBs s o (nodeBytes m)) o 8 = write m.prev := by
    have h := readBs_writeBs_in s o (nodeBytes m) 0 8 (by rw [nodeBytes_length] <;> omega)
    rw [List.drop_zero, t0] at h
    simpa using h
  have r1 : readBs (writeBs s o (nodeBytes m)) (o + 8) 8 = write m.next := by
    have h := readBs_writeBs_in s o (nodeBytes m) 8 8 (by rw [nodeBytes_length] <;> omega)
    rw [t1] at h
    simpa using h
  unfold nodeAtM readWord
  rw [r0, r1, read_write_id' _ h1, read_write_id' _ h2]

theorem readWord_write_self (s : Store) (o v : Int) (h : InRange64 v) :
    readWord (writeBs s o (write v)) o = v := by
  unfold readWord
  have r := readBs_writeBs_in0 s o (write v) 8 (by rw [write_length] <;> omega)
  rw [r, List.take_of_length_le (by rw [write_length] <;> omega)]
  exact read_write_id' v h

theorem nodeAtM_writeBs_out (s : Store) (o : Int) (bs : List Int) (o' : Int)
    (h : o' + 16 ≤ o ∨ o + bs.length ≤ o') :
    nodeAtM (writeBs s o bs) o' = nodeAtM s o' := by
  unfold nodeAtM
  rw [readWord_writeBs_out s o bs o' (by omega),
      readWord_writeBs_out s o bs (o' + 8) (by omega)]

/-- Reachability along a next-pointer function from a list head; 0 is the
end marker, and an empty list head reaches nothing. -/
inductive ReachN (f : Int → Int) : Int → Int → Prop where
  | refl (h : Int) : h ≠ 0 → ReachN f h h
  | step {h o : Int} : ReachN f h o → f o ≠ 0 → ReachN f h (f o)

theorem not_reachN_zero {f : Int → Int} {o : Int} (h : ReachN f 0 o) : False := by
  induction h with
  | refl hne => exact hne rfl
  | step _ _ ih => exact ih

/-- Next pointer of the page at o as stored (field at offset 16). -/
def pageNextF (s : Store) (o : Int) : Int := readWord s (o + 16)

/-- Next pointer of the node at o as stored (field at offset 8). -/
def nodeNextF (s : Store) (o : Int) : Int := readWord s (o + 8)

/-- Data-model invariant of a page sitting on the free list of rank i
(spec section 3): the header is page-aligned inside the store, the stored
rank equals the list index, and the rank determines the size class: a
shared page spans one page with its bump index below capacity, an
exclusive page of rank 7..21 spans exactly rank - 6 pages, and a rank-22
page spans at least 16 pages. -/
def GoodPageHead (s : Store) (i : Nat) (o : Int) : Prop :=
  szFile ≤ o ∧ (o - szFile) % pageSize = 0 ∧
  0 < (pageAtM s o).size ∧ o + (pageAtM s o).size ≤ s.size ∧
  (pageAtM s o).next ≠ o ∧
  (pageAtM s o).rank = i ∧
  (i ≤ maxSharedRank →
    (pageAtM s o).size = pageSize ∧ 0 ≤ (pageAtM s o).brk ∧ (pageAtM s o).brk < capA i) ∧
  (maxSharedRank < i →
    (pageAtM s o).size % pageSize = 0 ∧ pageSize ≤ (pageAtM s o).size ∧
    (i < ranks - 1 → (pageAtM s o).size = ((i : Int) - 6) * pageSize))

/-- Data-model invariant of a free-slot node on slots[r] (spec section
3): the node offset is slot j of its page-aligned containing page, whose
stored rank is r. -/
def GoodNode (s : Store) (r : Nat) (o : Int) : Prop :=
  ∃ j : Int, 0 ≤ j ∧ j < capA r ∧
    o = alignPage o + szPage + j * 2 ^ (r + 4) ∧
    szFile ≤ alignPage o ∧ (alignPage o - szFile) % pageSize = 0 ∧
    (pageAtM s (alignPage o)).rank = (r : Int)

/-- The data-model invariants of the allocator state needed by the Alloc
paths: well-formed head arrays, a sane file size (any real store is
below 2^62 bytes), every page reachable on a page free-list satisfies
GoodPageHead, every node reachable on a slot free-list satisfies
GoodNode, and the head node of a slot free-list has a nil prev link. -/
def Inv (a : Allocator) : Prop :=
  a.pages.length = ranks ∧ a.slots.length = slotRanks ∧
  0 ≤ a.fsize ∧ a.fsize ≤ 2 ^ 62 ∧ a.store.size ≤ 2 ^ 62 ∧
  (∀ i : Nat, i < ranks → ∀ o : Int,
    ReachN (pageNextF a.store) (getI a.pages i) o → GoodPageHead a.store i o) ∧
  (∀ r : Nat, r < slotRanks → ∀ o : Int,
    ReachN (nodeNextF a.store) (getI a.slots r) o → GoodNode a.store r o) ∧
  (∀ r : Nat, r < slotRanks → getI a.slots r ≠ 0 →
    (nodeAtM a.store (getI a.slots r)).prev = 0)

theorem roundup_ge (n m : Int) (hm : 0 < m) : n ≤ roundup n m := by
  unfold roundup andn
  have := Int.emod_nonneg (n + m - 1) (by omega : m ≠ 0)
  have := Int.emod_lt_of_pos (n + m - 1) hm
  omega

theorem roundup_mod (n m : Int) (hm : 0 < m) : roundup n m % m = 0 := by
  unfold roundup andn
  rw [Int.sub_emod, Int.emod_emod_of_dvd _ dvd_rfl, sub_self, Int.zero_emod]

theorem roundup_lt (n m : Int) (hm : 0 < m) : roundup n m < n + m := by
  unfold roundup andn
  have := Int.emod_nonneg (n + m - 1) (by omega : m ≠ 0)
  have := Int.emod_lt_of_pos (n + m - 1) hm
  omega

theorem slotRankE_spec (n : Int) (h1 : 0 < n) (h2 : n ≤ 1024) :
    ∃ r : Nat, r < 7 ∧ slotRankE n = .ok r ∧ n ≤ 2 ^ (r + 4) ∧ (2:Int) ^ (r + 4) ≤ 1024 := by
  have hd : ∀ m : Nat, m < 1024 →
      ∃ r : Nat, r < 7 ∧ slotRankE ((m : Int) + 1) = .ok r ∧ ((m : Int) + 1) ≤ 2 ^ (r + 4) ∧
        (2:Int) ^ (r + 4) ≤ 1024 := by decide
  obtain ⟨m, hm, hv⟩ : ∃ m : Nat, m < 1024 ∧ (m : Int) + 1 = n :=
    ⟨(n - 1).toNat, by omega, by omega⟩
  rw [← hv]
  exact hd m hm

theorem pageRankE_spec (n : Int) (h : maxSlot < n) :
    ∃ r : Nat, pageRankE n = .ok r ∧ 7 ≤ r ∧ r ≤ 22 ∧
      (r < 22 → ((r : Int) - 6) * pageSize = roundup n pageSize) ∧
      (r = 22 → 16 * pageSize ≤ roundup n pageSize) := by
  have h1024 : ¬ (n ≤ maxSlot) := by omega
  have hge : n ≤ roundup n pageSize := roundup_ge n pageSize (by norm_num [pageSize])
  have hmod : roundup n pageSize % pageSize = 0 :=
    roundup_mod n pageSize (by norm_num [pageSize])
  have hps : pageSize = (4096 : Int) := rfl
  have hmx : maxSlot = (1024 : Int) := rfl
  have hq1 : 1 ≤ roundup n pageSize / pageSize := by
    rw [hps] at hmod hge ⊢
    rw [hmx] at h
    omega
  have hR : roundup n pageSize = pageSize * (roundup n pageSize / pageSize) := by
    rw [hps] at hmod ⊢
    omega
  simp only [pageRankE, if_neg h1024]
  by_cases hc : (roundup n pageSize / pageSize).toNat + 6 ≥ ranks
  · have hc23 : 23 ≤ (roundup n pageSize / pageSize).toNat + 6 := hc
    refine ⟨22, ?_, ?_, ?_, ?_, ?_⟩
    · rw [if_pos hc]
      rfl
    · omega
    · omega
    · intro hlt
      omega
    · intro _h22
      rw [hps] at hq1 hR hc23 ⊢
      omega
  · push_neg at hc
    have hc23 : (roundup n pageSize / pageSize).toNat + 6 < 23 := hc
    refine ⟨(roundup n pageSize / pageSize).toNat + 6, ?_, ?_, ?_, ?_, ?_⟩
    · rw [if_neg (by omega)]
    · omega
    · omega
    · intro hlt
      rw [hps] at hq1 hR hc23 ⊢
      push_cast
      omega
    · intro heq
      rw [hps] at hq1 hR hc23 heq ⊢
      omega

theorem getI_setI_self (l : List Int) (i : Nat) (v : Int) (h : i < l.length) :
    getI (setI l i v) i = v := by
  simp [getI, setI, List.getD_eq_getElem?_getD, List.getElem?_set_self, h]

theorem getI_setI_ne (l : List Int) (i j : Nat) (v : Int) (h : i ≠ j) :
    getI (setI l i v) j = getI l j := by
  simp [getI, setI, List.getD_eq_getElem?_getD, List.getElem?_set_ne h]

theorem setI_length (l : List Int) (i : Nat) (v : Int) :
    (setI l i v).length = l.length := by
  simp [setI]

theorem headerBytes_length (pg sl : List Int) : (headerBytes pg sl).length = 240 := by
  have hlen : ∀ (l : List Int) (k : Nat),
      (((List.range k).map fun i => write (getI l i)).flatten).length = 8 * k := by
    intro l k
    induction k with
    | zero => rfl
    | succ m ih =>
      rw [List.range_succ, List.map_append, List.flatten_append]
      simp [ih, write_length]
      omega
  simp [headerBytes, hlen]
  rfl

theorem flushA_spec (a : Allocator) :
    (flushA a).1 = .ok () ∧
    (flushA a).2.pages = a.pages ∧ (flushA a).2.slots = a.slots ∧
    (flushA a).2.fsize = a.fsize ∧
    a.store.size ≤ (flushA a).2.store.size ∧
    (∀ o : Int, szFile ≤ o → pageAtM (flushA a).2.store o = pageAtM a.store o) := by
  unfold flushA
  split
  · exact ⟨rfl, rfl, rfl, rfl, le_refl _, fun o _ => rfl⟩
  · refine ⟨rfl, rfl, rfl, rfl, writeBs_size_le _ _ _, ?_⟩
    intro o ho
    apply pageAtM_writeBs_out
    right
    rw [headerBytes_length]
    norm_num [oFileSkip, szFile] at *
    omega

theorem usableSize_compute (a : Allocator) (off : Int)
    (h1 : szFile + szPage ≤ off)
    (hb0 : 0 ≤ alignPage off) (hb1 : alignPage off + 48 ≤ a.store.size)
    (hr0 : 0 ≤ (pageAtM a.store (alignPage off)).rank)
    (hr1 : (pageAtM a.store (alignPage off)).rank < (ranks : Int)) :
    usableSize off a =
      (.ok ((if (pageAtM a.store (alignPage off)).rank ≤ (maxSharedRank : Int)
             then 2 ^ ((pageAtM a.store (alignPage off)).rank + 4).toNat
             else (pageAtM a.store (alignPage off)).size - szPage - szTail),
            pageAtM a.store (alignPage off)), a) := by
  have hn : ¬ (off < szFile + szPage) := by omega
  simp only [usableSize, if_neg hn, AM.bind_apply, openPage_eq, if_pos (And.intro hb0 hb1)]
  rw [if_neg (by push_neg; exact ⟨hr0, hr1⟩)]
  by_cases hsh : (pageAtM a.store (alignPage off)).rank ≤ (maxSharedRank : Int)
  · simp only [if_pos hsh, AM.pure_apply]
  · simp only [if_neg hsh, AM.pure_apply]

theorem read_write_wrap (v : Int) : read (write v) = wrap64 v := by
  rw [write_explicit, read]
  simp only [List.take, List.foldl]
  have e56 : Int.fdiv v (2 ^ 56) = v / 2 ^ 56 := Int.fdiv_eq_ediv v (by positivity)
  have e48 : Int.fdiv v (2 ^ 48) = v / 2 ^ 48 := Int.fdiv_eq_ediv v (by positivity)
  have e40 : Int.fdiv v (2 ^ 40) = v / 2 ^ 40 := Int.fdiv_eq_ediv v (by positivity)
  have e32 : Int.fdiv v (2 ^ 32) = v / 2 ^ 32 := Int.fdiv_eq_ediv v (by positivity)
  have e24 : Int.fdiv v (2 ^ 24) = v / 2 ^ 24 := Int.fdiv_eq_ediv v (by positivity)
  have e16 : Int.fdiv v (2 ^ 16) = v / 2 ^ 16 := Int.fdiv_eq_ediv v (by positivity)
  have e8 : Int.fdiv v (2 ^ 8) = v / 2 ^ 8 := Int.fdiv_eq_ediv v (by positivity)
  have e0 : Int.fdiv v (2 ^ 0) = v := by
    rw [Int.fdiv_eq_ediv v (by norm_num)]
    simp
  rw [e56, e48, e40, e32, e24, e16, e8, e0]
  unfold wrap64
  omega

theorem wrap64_id (v : Int) (h : InRange64 v) : wrap64 v = v := by
  obtain ⟨h1, h2⟩ := h
  unfold wrap64
  omega

theorem readWord_write_wrap (s : Store) (o v : Int) :
    readWord (writeBs s o (write v)) o = wrap64 v := by
  unfold readWord
  have r := readBs_writeBs_in0 s o (write v) 8 (by rw [write_length] <;> omega)
  rw [r, List.take_of_length_le (by rw [write_length] <;> omega)]
  exact read_write_wrap v

theorem pageAtM_flush_wrap (s : Store) (o : Int) (m : MemPage) :
    pageAtM (writeBs s o (pageBytes m)) o =
      { dirty := false, off := o, brk := wrap64 m.brk, prev := wrap64 m.prev,
        next := wrap64 m.next, rank := wrap64 m.rank, size := wrap64 m.size,
        used := wrap64 m.used } := by
  obtain ⟨t0, t1, t2, t3, t4, t5⟩ := pageBytes_slice m
  have r0 : readBs (writeBs s o (pageBytes m)) o 8 = write m.brk := by
    have h := readBs_writeBs_in s o (pageBytes m) 0 8 (by rw [pageBytes_length] <;> omega)
    rw [List.drop_zero, t0] at h
    simpa using h
  have r1 : readBs (writeBs s o (pageBytes m)) (o + 8) 8 = write m.prev := by
    have h := readBs_writeBs_in s o (pageBytes m) 8 8 (by rw [pageBytes_length] <;> omega)
    rw [t1] at h
    simpa using h
  have r2 : readBs (writeBs s o (pageBytes m)) (o + 16) 8 = write m.next := by
    have h := readBs_writeBs_in s o (pageBytes m) 16 8 (by rw [pageBytes_length] <;> omega)
    rw [t2] at h
    simpa using h
  have r3 : readBs (writeBs s o (pageBytes m)) (o + 24) 8 = write m.rank := by
    have h := readBs_writeBs_in s o (pageBytes m) 24 8 (by rw [pageBytes_length] <;> omega)
    rw [t3] at h
    simpa using h
  have r4 : readBs (writeBs s o (pageBytes m)) (o + 32) 8 = write m.size := by
    have h := readBs_writeBs_in s o (pageBytes m) 32 8 (by rw [pageBytes_length] <;> omega)
    rw [t4] at h
    simpa using h
  have r5 : readBs (writeBs s o (pageBytes m)) (o + 40) 8 = write m.used := by
    have h := readBs_writeBs_in s o (pageBytes m) 40 8 (by rw [pageBytes_length] <;> omega)
    rw [t5] at h
    simpa using h
  unfold pageAtM readWord
  rw [r0, r1, r2, r3, r4, r5]
  simp only [read_write_wrap]

/-- What a successful memPage.unlink does to the allocator state, at the
level needed by the Alloc path proofs: the returned page has its links
cleared, the store only receives 48-byte neighbour-header writes (so its
length never shrinks), and fsize and the slot heads are untouched. -/
theorem unlink_ok_value (m : MemPage) (a : Allocator) {m' : MemPage} {a' : Allocator}
    (hrun : m.unlink a = (.ok m', a')) : m' = (m.setPrev 0).setNext 0 := by
  unfold MemPage.unlink at hrun
  simp only [AM.bind_apply, AM.pure_apply, getS_apply, openPage_eq, MemPage.flush,
    MemPage.setNext, MemPage.setPrev, setPage, modifyS_apply, writeAt, Bool.not_true,
    Bool.not_false, if_false, if_true] at hrun
  repeat' (first
    | (simp only [openPage_eq, AM.bind_apply, AM.pure_apply, modifyS_apply] at hrun)
    | split at hrun)
  all_goals
    first
      | (exfalso; simp_all; done)
      | (obtain ⟨hm', ha'⟩ := hrun
         simp [MemPage.setPrev, MemPage.setNext, ← hm'])
      | (rw [Prod.mk.injEq, Except.ok.injEq] at hrun
         obtain ⟨hm', ha'⟩ := hrun
         simp [MemPage.setPrev, MemPage.setNext, ← hm'])

/-- What C3 and C10 need of a fresh allocation: the returned offset is
past the header area and 16-aligned, sits past its page's header, and
usableSize reports u bytes for it in the post-state. -/
def PostAlloc (a' : Allocator) (off u : Int) : Prop :=
  szFile + szPage ≤ off ∧ off % 16 = 0 ∧ alignPage off + szPage ≤ off ∧
  usableSize off a' = (.ok (u, pageAtM a'.store (alignPage off)), a')

theorem shared_rank_facts (r : Nat) (h : r < 7) :
    16 ≤ (2:Int) ^ (r + 4) ∧ (2:Int) ^ (r + 4) ≤ 1024 ∧
      capA r * 2 ^ (r + 4) ≤ 4040 ∧ (16:Int) ∣ 2 ^ (r + 4) ∧ 0 < capA r := by
  revert r
  decide

theorem cast_add4_toNat (r : Nat) : (((r : Int)) + 4).toNat = r + 4 := by omega

theorem flushA_eq (a : Allocator) : flushA a = (.ok (), (flushA a).2) := by
  unfold flushA
  split <;> rfl

theorem postAlloc_finish (a2 : Allocator) (head : Int) (r : Nat) (i : Int)
    (hrank : (pageAtM a2.store head).rank = (r : Int)) (hr : r < 7)
    (hal : szFile ≤ head) (hmod : (head - szFile) % pageSize = 0)
    (hsz : head + 48 ≤ a2.store.size)
    (hi0 : 0 ≤ i) (hic : i < capA r) :
    PostAlloc (flushA a2).2 (head + szPage + i * 2 ^ (r + 4)) (2 ^ (r + 4)) := by
  obtain ⟨h16, h1024, hcap, hdvd, hcpos⟩ := shared_rank_facts r hr
  obtain ⟨-, -, -, -, hfsz, hfat⟩ := flushA_spec a2
  have hal' : (256:Int) ≤ head := hal
  have hmod' : (head - 256) % 4096 = 0 := hmod
  set off := head + szPage + i * 2 ^ (r + 4) with hoff
  have hoff' : off = head + 48 + i * 2 ^ (r + 4) := hoff
  have hprod0 : 0 ≤ i * 2 ^ (r + 4) := mul_nonneg hi0 (by positivity)
  have hprod1 : i * 2 ^ (r + 4) ≤ (capA r - 1) * 2 ^ (r + 4) :=
    mul_le_mul_of_nonneg_right (by omega) (by positivity)
  have hprod2 : (capA r - 1) * 2 ^ (r + 4) = capA r * 2 ^ (r + 4) - 2 ^ (r + 4) := by ring
  have hdvd2 : (16 : Int) ∣ i * 2 ^ (r + 4) := Dvd.dvd.mul_left hdvd i
  have halign : alignPage off = head := by
    rw [alignPage, andn]
    have hps : pageSize = (4096:Int) := rfl
    have hsf : szFile = (256:Int) := rfl
    rw [hps, hsf]
    omega
  have h304 : szFile + szPage ≤ off := by
    show (256:Int) + 48 ≤ off
    omega
  have h16al : off % 16 = 0 := by omega
  have hb0 : 0 ≤ alignPage off := by rw [halign]; omega
  have hb1 : alignPage off + 48 ≤ (flushA a2).2.store.size := by rw [halign]; omega
  have hpat : pageAtM (flushA a2).2.store (alignPage off) = pageAtM a2.store head := by
    rw [halign]
    exact hfat head hal
  have hr0 : (0:Int) ≤ (pageAtM (flushA a2).2.store (alignPage off)).rank := by
    rw [hpat, hrank]
    positivity
  have hr1 : (pageAtM (flushA a2).2.store (alignPage off)).rank < (ranks : Int) := by
    rw [hpat, hrank]
    show ((r:Int)) < ((23:Nat) : Int)
    omega
  refine ⟨h304, h16al, ?_, ?_⟩
  · rw [halign]
    show head + (48:Int) ≤ off
    omega
  · rw [usableSize_compute _ _ h304 hb0 hb1 hr0 hr1]
    rw [hpat, hrank]
    have hsh : ((r : Int)) ≤ (maxSharedRank : Int) := by
      show ((r:Int)) ≤ ((6:Nat) : Int)
      omega
    rw [if_pos hsh, cast_add4_toNat]

theorem postAllocBig_finish (a2 : Allocator) (head : Int) (r : Nat)
    (hrank : (pageAtM a2.store head).rank = (r : Int)) (h7 : 7 ≤ r) (h23 : r < 23)
    (hal : szFile ≤ head) (hmod : (head - szFile) % pageSize = 0)
    (hsz : head + 48 ≤ a2.store.size) :
    PostAlloc (flushA a2).2 (head + szPage)
      ((pageAtM a2.store head).size - szPage - szTail) := by
  obtain ⟨-, -, -, -, hfsz, hfat⟩ := flushA_spec a2
  have hal' : (256:Int) ≤ head := hal
  have hmod' : (head - 256) % 4096 = 0 := hmod
  set off := head + szPage with hoff
  have hoff' : off = head + 48 := hoff
  have halign : alignPage off = head := by
    rw [alignPage, andn]
    have hps : pageSize = (4096:Int) := rfl
    have hsf : szFile = (256:Int) := rfl
    rw [hps, hsf]
    omega
  have h304 : szFile + szPage ≤ off := by
    show (256:Int) + 48 ≤ off
    omega
  have h16al : off % 16 = 0 := by omega
  have hb0 : 0 ≤ alignPage off := by rw [halign]; omega
  have hb1 : alignPage off + 48 ≤ (flushA a2).2.store.size := by rw [halign]; omega
  have hpat : pageAtM (flushA a2).2.store (alignPage off) = pageAtM a2.store head := by
    rw [halign]
    exact hfat head hal
  have hr0 : (0:Int) ≤ (pageAtM (flushA a2).2.store (alignPage off)).rank := by
    rw [hpat, hrank]
    positivity
  have hr1 : (pageAtM (flushA a2).2.store (alignPage off)).rank < (ranks : Int) := by
    rw [hpat, hrank]
    show ((r:Int)) < ((23:Nat) : Int)
    omega
  refine ⟨h304, h16al, ?_, ?_⟩
  · rw [halign]
  · rw [usableSize_compute _ _ h304 hb0 hb1 hr0 hr1]
    rw [hpat, hrank]
    have hsh : ¬ (((r : Int)) ≤ (maxSharedRank : Int)) := by
      show ¬ ((r:Int)) ≤ ((6:Nat) : Int)
      omega
    rw [if_neg hsh]

theorem pageBytes_ne_nil (m : MemPage) : pageBytes m ≠ [] := by
  intro h
  have := pageBytes_length m
  rw [h] at this
  simp at this

theorem nodeBytes_ne_nil (m : MemNode) : nodeBytes m ≠ [] := by
  intro h
  have := nodeBytes_length m
  rw [h] at this
  simp at this

theorem write_ne_nil (v : Int) : write v ≠ [] := by
  intro h
  have := write_length v
  rw [h] at this
  simp at this

theorem max_shared_val : maxSharedRank = 6 := rfl

theorem pageAtM_off (s : Store) (o : Int) : (pageAtM s o).off = o := rfl

theorem ranks_val : ranks = 23 := rfl

theorem sbrk_post (a : Allocator) (r : Nat) (hr7 : r < 7)
    (hInv : Inv a) (hne : getI a.pages r ≠ 0)
    {off : Int} {a' : Allocator}
    (hrun : sbrk (getI a.pages r) r a = (.ok off, a')) :
    PostAlloc a' off (2 ^ (r + 4)) := by
  obtain ⟨hlp, hls, hf0, hf1, hs1, hpgInv, hslInv, hhdInv⟩ := hInv
  have hgood : GoodPageHead a.store r (getI a.pages r) :=
    hpgInv r (by rw [ranks_val]; omega) _ (.refl _ hne)
  set head := getI a.pages r with hhead
  obtain ⟨hal, hmod, hszpos, hszle, -, hrank, hsharedF, -⟩ := hgood
  obtain ⟨hpsz, hbrk0, hbrkc⟩ := hsharedF (by rw [max_shared_val]; omega)
  unfold sbrk at hrun
  simp only [AM.bind_apply, openPage_eq] at hrun
  by_cases hb : 0 ≤ head ∧ head + 48 ≤ a.store.size
  case neg =>
    rw [if_neg hb] at hrun
    exact absurd hrun (by simp)
  case pos =>
  rw [if_pos hb] at hrun
  dsimp only at hrun
  rw [if_neg (not_not_intro hrank)] at hrun
  simp only [MemPage.setUsed, MemPage.setBrk, hrank, pageAtM_off] at hrun
  by_cases hfull : (pageAtM a.store head).brk + 1 = capA r
  case pos =>
    rw [if_pos hfull] at hrun
    simp only [AM.bind_apply] at hrun
    rcases hu : MemPage.unlink
        { dirty := true, off := head,
          brk := (pageAtM a.store head).brk + 1,
          prev := (pageAtM a.store head).prev, next := (pageAtM a.store head).next,
          rank := (r : Int), size := (pageAtM a.store head).size,
          used := (pageAtM a.store head).used + 1 } a with ⟨ur, a2⟩
    rw [hu] at hrun
    rcases ur with e | m2
    · simp at hrun
    have hm2 := unlink_ok_value _ _ hu
    subst hm2
    simp only [MemPage.setPrev, MemPage.setNext, MemPage.flush, Bool.not_true,
      Bool.false_eq_true, if_false, AM.bind_apply, writeAt, modifyS_apply,
      AM.pure_apply] at hrun
    rw [flushA_eq] at hrun
    simp only [MemPage.slot] at hrun
    rw [Prod.mk.injEq, Except.ok.injEq] at hrun
    obtain ⟨hoffv, hav⟩ := hrun
    subst hav
    rw [← hoffv]
    have hred : (pageAtM a.store head).brk + 1 - 1 = (pageAtM a.store head).brk := by ring
    rw [hred, cast_add4_toNat]
    apply postAlloc_finish _ head r _ ?_ hr7 hal hmod ?_ hbrk0 hbrkc
    · dsimp only
      rw [pageAtM_flush_wrap]
      have hr7i : (r : Int) < 7 := by exact_mod_cast hr7
      exact wrap64_id ((r : Int)) ⟨le_trans (by norm_num) (Int.natCast_nonneg r),
        lt_trans hr7i (by norm_num)⟩
    · dsimp only
      calc head + 48 = head + ((pageBytes
            { dirty := true, off := head, brk := (pageAtM a.store head).brk + 1, prev := 0,
              next := 0, rank := (r : Int), size := (pageAtM a.store head).size,
              used := (pageAtM a.store head).used + 1 }).length : Int) := by
            rw [pageBytes_length]; norm_num
        _ ≤ _ := writeBs_size_ge _ _ _ (pageBytes_ne_nil _)
  case neg =>
    rw [if_neg hfull] at hrun
    simp only [AM.bind_apply, AM.pure_apply, MemPage.flush, Bool.not_true,
      Bool.false_eq_true, if_false, writeAt, modifyS_apply] at hrun
    rw [flushA_eq] at hrun
    simp only [MemPage.slot] at hrun
    rw [Prod.mk.injEq, Except.ok.injEq] at hrun
    obtain ⟨hoffv, hav⟩ := hrun
    subst hav
    rw [← hoffv]
    have hred : (pageAtM a.store head).brk + 1 - 1 = (pageAtM a.store head).brk := by ring
    rw [hred, cast_add4_toNat]
    apply postAlloc_finish _ head r _ ?_ hr7 hal hmod ?_ hbrk0 hbrkc
    · dsimp only
      rw [pageAtM_flush_wrap]
      have hr7i : (r : Int) < 7 := by exact_mod_cast hr7
      exact wrap64_id ((r : Int)) ⟨le_trans (by norm_num) (Int.natCast_nonneg r),
        lt_trans hr7i (by norm_num)⟩
    · dsimp only
      calc head + 48 = head + ((pageBytes
            { dirty := true, off := head, brk := (pageAtM a.store head).brk + 1, prev := 0,
              next := 0, rank := (r : Int), size := (pageAtM a.store head).size,
              used := (pageAtM a.store head).used + 1 }).length : Int) := by
            rw [pageBytes_length]; norm_num
        _ ≤ _ := writeBs_size_ge _ _ _ (pageBytes_ne_nil _)

theorem firstPageRank_val : firstPageRank = 7 := rfl

theorem sbrk2_post (a : Allocator) (rank : Nat) (hrk : rank < 7) (hInv : Inv a)
    (hne : getI a.pages firstPageRank ≠ 0) {off : Int} {a' : Allocator}
    (hrun : sbrk2 (getI a.pages firstPageRank) rank a = (.ok off, a')) :
    PostAlloc a' off (2 ^ (rank + 4)) := by
  obtain ⟨hlp, hls, hf0, hf1, hs1, hpgInv, hslInv, hhdInv⟩ := hInv
  have hgood : GoodPageHead a.store firstPageRank (getI a.pages firstPageRank) :=
    hpgInv firstPageRank (by rw [firstPageRank_val, ranks_val]; omega) _ (.refl _ hne)
  set head := getI a.pages firstPageRank with hhead
  obtain ⟨hal, hmod, hszpos, hszle, -, hrank7, -, hexcl⟩ := hgood
  obtain ⟨hmodp, hple, hexact⟩ :=
    hexcl (by rw [max_shared_val, firstPageRank_val]; omega)
  have hsz7 : (pageAtM a.store head).size = 4096 := by
    rw [hexact (by rw [firstPageRank_val, ranks_val]; omega), firstPageRank_val]
    norm_num
    rfl
  have hps4096 : (pageSize : Int) = 4096 := rfl
  unfold sbrk2 at hrun
  simp only [AM.bind_apply, openPage_eq] at hrun
  by_cases hb : 0 ≤ head ∧ head + 48 ≤ a.store.size
  case neg =>
    rw [if_neg hb] at hrun
    simp at hrun
  case pos =>
  rw [if_pos hb] at hrun
  dsimp only at hrun
  rcases hu : MemPage.unlink (pageAtM a.store head) a with ⟨ur, a2⟩
  rw [hu] at hrun
  rcases ur with e | m2
  · simp at hrun
  have hm2 := unlink_ok_value _ _ hu
  subst hm2
  simp only [MemPage.setPrev, MemPage.setNext, MemPage.setRank, MemPage.setUsed,
    MemPage.setBrk, pageAtM_off, insertPage, ne_eq, not_true_eq_false, not_false_eq_true,
    or_self, if_false, AM.bind_apply, getS_apply, Int.toNat_natCast, hsz7,
    AM.pure_apply] at hrun
  by_cases hhd : getI a2.pages rank = 0
  case pos =>
    rw [hhd] at hrun
    simp only [ite_not, if_true, if_pos rfl, setPage, modifyS_apply, AM.bind_apply, AM.pure_apply,
      MemPage.flush, Bool.not_true, Bool.false_eq_true, if_false, writeAt,
      MemPage.setTail, Int.toNat_natCast] at hrun
    rw [flushA_eq] at hrun
    rw [Prod.mk.injEq, Except.ok.injEq] at hrun
    obtain ⟨hoffv, hav⟩ := hrun
    subst hav
    rw [← hoffv]
    have hze : head + szPage = head + szPage + 0 * 2 ^ (rank + 4) := by ring
    rw [hze]
    apply postAlloc_finish _ head rank 0 ?_ hrk hal hmod ?_ le_rfl
      (shared_rank_facts rank hrk).2.2.2.2
    · dsimp only
      rw [pageAtM_writeBs_out _ _ _ _ (Or.inl (by
          have hst : (szTail : Int) = 8 := rfl
          rw [hst]; omega)),
        pageAtM_flush_wrap]
      have hr7i : (rank : Int) < 7 := by exact_mod_cast hrk
      exact wrap64_id ((rank : Int)) ⟨le_trans (by norm_num) (Int.natCast_nonneg rank),
        lt_trans hr7i (by norm_num)⟩
    · dsimp only
      calc head + 48 = head + ((pageBytes
            { dirty := true, off := head, brk := 1, prev := 0,
              next := 0, rank := (rank : Int), size := (4096 : Int),
              used := 1 }).length : Int) := by
            rw [pageBytes_length]; norm_num
        _ ≤ _ := le_trans (writeBs_size_ge _ _ _ (pageBytes_ne_nil _))
              (writeBs_size_le _ _ _)
  case neg =>
    simp only [ite_not, if_false, if_neg hhd, AM.bind_apply, openPage_eq] at hrun
    by_cases hb2 : 0 ≤ getI a2.pages rank ∧ getI a2.pages rank + 48 ≤ a2.store.size
    case neg =>
      rw [if_neg hb2] at hrun
      simp at hrun
    case pos =>
    rw [if_pos hb2] at hrun
    simp only [MemPage.setPrev, MemPage.flush, Bool.not_true, Bool.false_eq_true,
      if_false, AM.bind_apply, AM.pure_apply, writeAt, modifyS_apply, setPage,
      MemPage.setTail, Int.toNat_natCast] at hrun
    rw [flushA_eq] at hrun
    rw [Prod.mk.injEq, Except.ok.injEq] at hrun
    obtain ⟨hoffv, hav⟩ := hrun
    subst hav
    rw [← hoffv]
    have hze : head + szPage = head + szPage + 0 * 2 ^ (rank + 4) := by ring
    rw [hze]
    apply postAlloc_finish _ head rank 0 ?_ hrk hal hmod ?_ le_rfl
      (shared_rank_facts rank hrk).2.2.2.2
    · dsimp only
      rw [pageAtM_writeBs_out _ _ _ _ (Or.inl (by
          have hst : (szTail : Int) = 8 := rfl
          rw [hst]; omega)),
        pageAtM_flush_wrap]
      have hr7i : (rank : Int) < 7 := by exact_mod_cast hrk
      exact wrap64_id ((rank : Int)) ⟨le_trans (by norm_num) (Int.natCast_nonneg rank),
        lt_trans hr7i (by norm_num)⟩
    · dsimp only
      calc head + 48 = head + ((pageBytes
            { dirty := true, off := head, brk := 1, prev := 0,
              next := getI a2.pages rank, rank := (rank : Int), size := (4096 : Int),
              used := 1 }).length : Int) := by
            rw [pageBytes_length]; norm_num
        _ ≤ _ := le_trans (writeBs_size_ge _ _ _ (pageBytes_ne_nil _))
              (writeBs_size_le _ _ _)

theorem nodeAtM_off (s : Store) (o : Int) : (nodeAtM s o).off = o := rfl

theorem nodeNextF_eq (s : Store) (o : Int) : nodeNextF s o = (nodeAtM s o).next := rfl

theorem slotRanks_val : slotRanks = 7 := rfl

/-- The 16-byte node written at the slot offset q (of a well-placed free
node of rank r) never overlaps the 48-byte page header at the page-aligned
offset A of another well-placed slot. -/
theorem node_header_disjoint (r : Nat) (hr : r < 7) (A B q : Int)
    (hA1 : szFile ≤ A) (hA2 : (A - szFile) % pageSize = 0)
    (hB1 : szFile ≤ B) (hB2 : (B - szFile) % pageSize = 0)
    (j : Int) (hj0 : 0 ≤ j) (hjc : j < capA r)
    (hq : q = B + szPage + j * 2 ^ (r + 4)) :
    A + 48 ≤ q ∨ q + 16 ≤ A := by
  obtain ⟨h16, h1024, hcap, hdvd, hcpos⟩ := shared_rank_facts r hr
  have hprod0 : 0 ≤ j * 2 ^ (r + 4) := mul_nonneg hj0 (by positivity)
  have hprod1 : j * 2 ^ (r + 4) ≤ (capA r - 1) * 2 ^ (r + 4) :=
    mul_le_mul_of_nonneg_right (by omega) (by positivity)
  have hprod2 : (capA r - 1) * 2 ^ (r + 4) = capA r * 2 ^ (r + 4) - 2 ^ (r + 4) := by ring
  have hsf : (szFile : Int) = 256 := rfl
  have hps : (pageSize : Int) = 4096 := rfl
  have hsp : (szPage : Int) = 48 := rfl
  rw [hsf, hps] at hA2
  rw [hsf, hps] at hB2
  rw [hsf] at hA1
  rw [hsf] at hB1
  rw [hsp] at hq
  omega

theorem allocSlot_post (a : Allocator) (rank : Nat) (hrk : rank < 7) (hInv : Inv a)
    (hne : getI a.slots rank ≠ 0) {off : Int} {a' : Allocator}
    (hrun : allocSlot (getI a.slots rank) rank a = (.ok off, a')) :
    PostAlloc a' off (2 ^ (rank + 4)) := by
  obtain ⟨hlp, hls, hf0, hf1, hs1, hpgInv, hslInv, hhdInv⟩ := hInv
  have hrk7 : rank < slotRanks := by rw [slotRanks_val]; omega
  have hgood : GoodNode a.store rank (getI a.slots rank) :=
    hslInv rank hrk7 _ (.refl _ hne)
  set shead := getI a.slots rank with hshead
  obtain ⟨j, hj0, hjc, hdecomp, hB1, hB2, hrkA⟩ := hgood
  have hprev0 : (nodeAtM a.store shead).prev = 0 := hhdInv rank hrk7 hne
  unfold allocSlot at hrun
  simp only [AM.bind_apply, openNode_eq] at hrun
  by_cases hb1 : 0 ≤ shead ∧ shead + 16 ≤ a.store.size
  case neg =>
    rw [if_neg hb1] at hrun
    simp at hrun
  case pos =>
  rw [if_pos hb1] at hrun
  dsimp only at hrun
  simp only [MemNode.unlink, hprev0, ne_eq, not_true_eq_false, not_false_eq_true,
    if_false, if_true, ite_not, AM.bind_apply, AM.pure_apply, getS_apply,
    nodeAtM_off, openNode_eq] at hrun
  by_cases hnx : (nodeAtM a.store shead).next = 0
  case pos =>
    rw [hnx] at hrun
    simp only [if_pos rfl, if_true, ite_not, ite_self, AM.bind_apply, AM.pure_apply,
      getS_apply, setSlot, modifyS_apply, openPage_eq] at hrun
    by_cases hb2 : 0 ≤ alignPage shead ∧ alignPage shead + 48 ≤ a.store.size
    case neg =>
      rw [if_neg hb2] at hrun
      simp at hrun
    case pos =>
    rw [if_pos hb2] at hrun
    dsimp only at hrun
    simp only [pageAtM_off, MemPage.setUsed, MemPage.flush, Bool.not_true,
      Bool.false_eq_true, if_false, AM.bind_apply, AM.pure_apply, writeAt,
      modifyS_apply] at hrun
    rw [flushA_eq] at hrun
    rw [Prod.mk.injEq, Except.ok.injEq] at hrun
    obtain ⟨hoffv, hav⟩ := hrun
    subst hav
    rw [← hoffv]
    conv => arg 2; rw [hdecomp]
    apply postAlloc_finish _ (alignPage shead) rank j ?_ hrk hB1 hB2 ?_ hj0 hjc
    · dsimp only
      rw [pageAtM_flush_wrap]
      dsimp only
      rw [hrkA]
      have hr7i : (rank : Int) < 7 := by exact_mod_cast hrk
      exact wrap64_id ((rank : Int)) ⟨le_trans (by norm_num) (Int.natCast_nonneg rank),
        lt_trans hr7i (by norm_num)⟩
    · dsimp only
      calc alignPage shead + 48
          = alignPage shead + ((pageBytes
            { dirty := true, off := alignPage shead,
              brk := (pageAtM a.store (alignPage shead)).brk,
              prev := (pageAtM a.store (alignPage shead)).prev,
              next := (pageAtM a.store (alignPage shead)).next,
              rank := (pageAtM a.store (alignPage shead)).rank,
              size := (pageAtM a.store (alignPage shead)).size,
              used := (pageAtM a.store (alignPage shead)).used + 1 }).length : Int) := by
            rw [pageBytes_length]; norm_num
        _ ≤ _ := writeBs_size_ge _ _ _ (pageBytes_ne_nil _)
  case neg =>
    rw [if_neg hnx] at hrun
    have hstep : nodeNextF a.store shead ≠ 0 := by rw [nodeNextF_eq]; exact hnx
    have hreach2 : ReachN (nodeNextF a.store) shead (nodeNextF a.store shead) :=
      ReachN.step (.refl shead hne) hstep
    rw [nodeNextF_eq] at hreach2
    obtain ⟨j2, hj20, hj2c, hdecomp2, hB21, hB22, hrkA2⟩ :=
      hslInv rank hrk7 _ hreach2
    have hdisj : alignPage shead + 48 ≤ (nodeAtM a.store shead).next ∨
        (nodeAtM a.store shead).next + 16 ≤ alignPage shead :=
      node_header_disjoint rank hrk (alignPage shead)
        (alignPage ((nodeAtM a.store shead).next)) _ hB1 hB2 hB21 hB22 j2 hj20 hj2c hdecomp2
    simp only [AM.bind_apply, AM.pure_apply, openNode_eq] at hrun
    by_cases hb3 : 0 ≤ (nodeAtM a.store shead).next ∧
        (nodeAtM a.store shead).next + 16 ≤ a.store.size
    case neg =>
      rw [if_neg hb3] at hrun
      simp at hrun
    case pos =>
    rw [if_pos hb3] at hrun
    simp only [MemNode.setPrev, MemNode.flush, Bool.not_true, Bool.false_eq_true,
      if_false, AM.bind_apply, AM.pure_apply, writeAt, modifyS_apply, setSlot,
      getS_apply, openPage_eq, nodeAtM_off, pageAtM_off] at hrun
    split at hrun
    case h_2 => simp at hrun
    case h_1 hb2 =>
    simp only [if_true, modifyS_apply] at hb2
    rw [Prod.mk.injEq] at hb2
    obtain ⟨-, hav2⟩ := hb2
    subst hav2
    dsimp only at hrun
    split at hrun
    case h_2 => simp at hrun
    case h_1 hb4 =>
    split at hb4
    case isFalse => simp at hb4
    case isTrue hc =>
    rw [Prod.mk.injEq, Except.ok.injEq] at hb4
    obtain ⟨hv, ha2⟩ := hb4
    subst hv
    subst ha2
    rw [pageAtM_writeBs_out _ _ _ _
      (by rw [nodeBytes_length]; push_cast; rcases hdisj with h | h <;> omega)] at hrun
    simp only [pageAtM_off, MemPage.setUsed, MemPage.flush, Bool.not_true,
      Bool.false_eq_true, if_false, AM.bind_apply, AM.pure_apply, writeAt,
      modifyS_apply] at hrun
    rw [flushA_eq] at hrun
    rw [Prod.mk.injEq, Except.ok.injEq] at hrun
    obtain ⟨hoffv, hav⟩ := hrun
    subst hav
    rw [← hoffv]
    conv => arg 2; rw [hdecomp]
    apply postAlloc_finish _ (alignPage shead) rank j ?_ hrk hB1 hB2 ?_ hj0 hjc
    · dsimp only
      rw [pageAtM_flush_wrap]
      dsimp only
      rw [hrkA]
      have hr7i : (rank : Int) < 7 := by exact_mod_cast hrk
      exact wrap64_id ((rank : Int)) ⟨le_trans (by norm_num) (Int.natCast_nonneg rank),
        lt_trans hr7i (by norm_num)⟩
    · dsimp only
      calc alignPage shead + 48
          = alignPage shead + ((pageBytes
            { dirty := true, off := alignPage shead,
              brk := (pageAtM a.store (alignPage shead)).brk,
              prev := (pageAtM a.store (alignPage shead)).prev,
              next := (pageAtM a.store (alignPage shead)).next,
              rank := (pageAtM a.store (alignPage shead)).rank,
              size := (pageAtM a.store (alignPage shead)).size,
              used := (pageAtM a.store (alignPage shead)).used + 1 }).length : Int) := by
            rw [pageBytes_length]; norm_num
        _ ≤ _ := writeBs_size_ge _ _ _ (pageBytes_ne_nil _)

theorem unlink_spec (m : MemPage) (a : Allocator) {m' : MemPage} {a' : Allocator}
    (hrun : m.unlink a = (.ok m', a')) :
    m' = (m.setPrev 0).setNext 0 ∧
    a'.pages = (if getI a.pages m.rank.toNat = m.off
                then setI a.pages m.rank.toNat m.next else a.pages) ∧
    a'.slots = a.slots ∧ a'.fsize = a.fsize ∧
    a.store.size ≤ a'.store.size ∧
    ∀ o : Int, (m.prev = 0 ∨ o + 48 ≤ m.prev ∨ m.prev + 48 ≤ o) →
      (m.next = 0 ∨ o + 48 ≤ m.next ∨ m.next + 48 ≤ o) →
      pageAtM a'.store o = pageAtM a.store o := by
  unfold MemPage.unlink at hrun
  simp only [AM.bind_apply, AM.pure_apply, openPage_eq, getS_apply, setPage,
    modifyS_apply, MemPage.setNext, MemPage.setPrev, MemPage.flush, Bool.not_true,
    Bool.false_eq_true, if_false, writeAt, ite_not] at hrun
  by_cases hp : m.prev = 0
  case pos =>
    rw [if_pos hp] at hrun
    try simp only [AM.bind_apply, AM.pure_apply, openPage_eq, getS_apply, modifyS_apply, pageAtM_off] at hrun
    by_cases hn : m.next = 0
    case pos =>
      rw [if_pos hn] at hrun
      try simp only [AM.bind_apply, AM.pure_apply, openPage_eq, getS_apply, modifyS_apply, pageAtM_off] at hrun
      by_cases hh : getI a.pages m.rank.toNat = m.off
      case pos =>
        rw [if_pos hh] at hrun
        try simp only [AM.bind_apply, AM.pure_apply, openPage_eq, getS_apply, modifyS_apply, pageAtM_off] at hrun
        rw [Prod.mk.injEq, Except.ok.injEq] at hrun
        obtain ⟨hm', ha'⟩ := hrun
        subst ha'
        refine ⟨hm'.symm, by rw [if_pos hh], rfl, rfl, le_rfl, fun o h1 h2 => rfl⟩
      case neg =>
        rw [if_neg hh] at hrun
        try simp only [AM.bind_apply, AM.pure_apply, openPage_eq, getS_apply, modifyS_apply, pageAtM_off] at hrun
        rw [Prod.mk.injEq, Except.ok.injEq] at hrun
        obtain ⟨hm', ha'⟩ := hrun
        subst ha'
        refine ⟨hm'.symm, by rw [if_neg hh], rfl, rfl, le_rfl, fun o h1 h2 => rfl⟩
    case neg =>
      rw [if_neg hn] at hrun
      try simp only [AM.bind_apply, AM.pure_apply, openPage_eq, getS_apply, modifyS_apply, pageAtM_off] at hrun
      by_cases hnb : 0 ≤ m.next ∧ m.next + 48 ≤ a.store.size
      case neg =>
        rw [if_neg hnb] at hrun
        simp at hrun
      case pos =>
      rw [if_pos hnb] at hrun
      try simp only [AM.bind_apply, AM.pure_apply, openPage_eq, getS_apply, modifyS_apply, pageAtM_off] at hrun
      by_cases hh : getI a.pages m.rank.toNat = m.off
      all_goals
        first
          | rw [if_pos hh] at hrun
          | rw [if_neg hh] at hrun
      all_goals
        try simp only [AM.bind_apply, AM.pure_apply, openPage_eq, getS_apply, modifyS_apply, pageAtM_off] at hrun
      all_goals
        rw [Prod.mk.injEq, Except.ok.injEq] at hrun
      all_goals
        obtain ⟨hm', ha'⟩ := hrun
      all_goals
        subst ha'
      case pos =>
        refine ⟨hm'.symm, by rw [if_pos hh], rfl, rfl, writeBs_size_le _ _ _,
          fun o h1 h2 => ?_⟩
        exact pageAtM_writeBs_out _ _ _ _ (by
          rw [pageBytes_length]
          push_cast
          rcases h2 with h | h | h
          · exact absurd h hn
          · omega
          · omega)
      case neg =>
        refine ⟨hm'.symm, by rw [if_neg hh], rfl, rfl, writeBs_size_le _ _ _,
          fun o h1 h2 => ?_⟩
        exact pageAtM_writeBs_out _ _ _ _ (by
          rw [pageBytes_length]
          push_cast
          rcases h2 with h | h | h
          · exact absurd h hn
          · omega
          · omega)
  case neg =>
    rw [if_neg hp] at hrun
    try simp only [AM.bind_apply, AM.pure_apply, openPage_eq, getS_apply, modifyS_apply, pageAtM_off] at hrun
    by_cases hpb : 0 ≤ m.prev ∧ m.prev + 48 ≤ a.store.size
    case neg =>
      rw [if_neg hpb] at hrun
      simp at hrun
    case pos =>
    rw [if_pos hpb] at hrun
    simp only [AM.bind_apply, AM.pure_apply, getS_apply, modifyS_apply] at hrun
    by_cases hn : m.next = 0
    case pos =>
      rw [if_pos hn] at hrun
      try simp only [AM.bind_apply, AM.pure_apply, openPage_eq, getS_apply, modifyS_apply, pageAtM_off] at hrun
      by_cases hh : getI a.pages m.rank.toNat = m.off
      all_goals
        first
          | rw [if_pos hh] at hrun
          | rw [if_neg hh] at hrun
      all_goals
        try simp only [AM.bind_apply, AM.pure_apply, openPage_eq, getS_apply, modifyS_apply, pageAtM_off] at hrun
      all_goals
        rw [Prod.mk.injEq, Except.ok.injEq] at hrun
      all_goals
        obtain ⟨hm', ha'⟩ := hrun
      all_goals
        subst ha'
      case pos =>
        refine ⟨hm'.symm, by rw [if_pos hh], rfl, rfl, writeBs_size_le _ _ _,
          fun o h1 h2 => ?_⟩
        exact pageAtM_writeBs_out _ _ _ _ (by
          rw [pageBytes_length]
          push_cast
          rcases h1 with h | h | h
          · exact absurd h hp
          · omega
          · omega)
      case neg =>
        refine ⟨hm'.symm, by rw [if_neg hh], rfl, rfl, writeBs_size_le _ _ _,
          fun o h1 h2 => ?_⟩
        exact pageAtM_writeBs_out _ _ _ _ (by
          rw [pageBytes_length]
          push_cast
          rcases h1 with h | h | h
          · exact absurd h hp
          · omega
          · omega)
    case neg =>
      rw [if_neg hn] at hrun
      try simp only [AM.bind_apply, AM.pure_apply, openPage_eq, getS_apply, modifyS_apply, pageAtM_off] at hrun
      by_cases hnb : 0 ≤ m.next ∧ m.next + 48 ≤
          (writeBs a.store m.prev (pageBytes
            { dirty := true, off := m.prev, brk := (pageAtM a.store m.prev).brk,
              prev := (pageAtM a.store m.prev).prev, next := m.next,
              rank := (pageAtM a.store m.prev).rank,
              size := (pageAtM a.store m.prev).size,
              used := (pageAtM a.store m.prev).used })).size
      case neg =>
        rw [if_neg hnb] at hrun
        simp at hrun
      case pos =>
      rw [if_pos hnb] at hrun
      try simp only [AM.bind_apply, AM.pure_apply, openPage_eq, getS_apply, modifyS_apply, pageAtM_off] at hrun
      by_cases hh : getI a.pages m.rank.toNat = m.off
      all_goals
        first
          | rw [if_pos hh] at hrun
          | rw [if_neg hh] at hrun
      all_goals
        try simp only [AM.bind_apply, AM.pure_apply, openPage_eq, getS_apply, modifyS_apply, pageAtM_off] at hrun
      all_goals
        rw [Prod.mk.injEq, Except.ok.injEq] at hrun
      all_goals
        obtain ⟨hm', ha'⟩ := hrun
      all_goals
        subst ha'
      case pos =>
        refine ⟨hm'.symm, by rw [if_pos hh], rfl, rfl,
          le_trans (writeBs_size_le _ _ _) (writeBs_size_le _ _ _),
          fun o h1 h2 => ?_⟩
        rw [pageAtM_writeBs_out _ _ _ _ (by
          rw [pageBytes_length]
          push_cast
          rcases h2 with h | h | h
          · exact absurd h hn
          · omega
          · omega)]
        exact pageAtM_writeBs_out _ _ _ _ (by
          rw [pageBytes_length]
          push_cast
          rcases h1 with h | h | h
          · exact absurd h hp
          · omega
          · omega)
      case neg =>
        refine ⟨hm'.symm, by rw [if_neg hh], rfl, rfl,
          le_trans (writeBs_size_le _ _ _) (writeBs_size_le _ _ _),
          fun o h1 h2 => ?_⟩
        rw [pageAtM_writeBs_out _ _ _ _ (by
          rw [pageBytes_length]
          push_cast
          rcases h2 with h | h | h
          · exact absurd h hn
          · omega
          · omega)]
        exact pageAtM_writeBs_out _ _ _ _ (by
          rw [pageBytes_length]
          push_cast
          rcases h1 with h | h | h
          · exact absurd h hp
          · omega
          · omega)

theorem pageAtM_size_range (s : Store) (o : Int) : InRange64 (pageAtM s o).size :=
  readWord_range s (o + 32)

theorem pageAtM_rank_range (s : Store) (o : Int) : InRange64 (pageAtM s o).rank :=
  readWord_range s (o + 24)

theorem allocBig2_post (a : Allocator) (i : Nat) (h7 : 7 ≤ i) (h22 : i < 22)
    (hInv : Inv a) (hne : getI a.pages i ≠ 0) {off : Int} {a' : Allocator}
    (hrun : allocBig2 (getI a.pages i) a = (.ok off, a')) :
    ∃ u, PostAlloc a' off u ∧ u = ((i : Int) - 6) * pageSize - szPage - szTail := by
  obtain ⟨hlp, hls, hf0, hf1, hs1, hpgInv, hslInv, hhdInv⟩ := hInv
  have hgood : GoodPageHead a.store i (getI a.pages i) :=
    hpgInv i (by rw [ranks_val]; omega) _ (.refl _ hne)
  set head := getI a.pages i with hhead
  obtain ⟨hal, hmod, hszpos, hszle, -, hrank, -, hexcl⟩ := hgood
  obtain ⟨hmodp, hple, hexact⟩ :=
    hexcl (by rw [max_shared_val]; omega)
  have hszv : (pageAtM a.store head).size = ((i : Int) - 6) * pageSize :=
    hexact (by rw [ranks_val]; omega)
  have hps : (pageSize : Int) = 4096 := rfl
  have hii : (7 : Int) ≤ (i : Int) := by exact_mod_cast h7
  unfold allocBig2 at hrun
  simp only [AM.bind_apply, openPage_eq] at hrun
  by_cases hb : 0 ≤ head ∧ head + 48 ≤ a.store.size
  case neg =>
    rw [if_neg hb] at hrun
    simp at hrun
  case pos =>
  rw [if_pos hb] at hrun
  dsimp only at hrun
  rcases hu : MemPage.unlink (pageAtM a.store head) a with ⟨ur, a2⟩
  rw [hu] at hrun
  rcases ur with e | m2
  · simp at hrun
  have hm2 := unlink_ok_value _ _ hu
  subst hm2
  simp only [MemPage.setPrev, MemPage.setNext, MemPage.flush, Bool.not_true,
    Bool.false_eq_true, if_false, AM.bind_apply, AM.pure_apply, writeAt,
    modifyS_apply, MemPage.setTail, pageAtM_off] at hrun
  rw [flushA_eq] at hrun
  rw [Prod.mk.injEq, Except.ok.injEq] at hrun
  obtain ⟨hoffv, hav⟩ := hrun
  subst hav
  rw [← hoffv]
  refine ⟨_, postAllocBig_finish _ head i ?_ h7 (by omega) hal hmod ?_, ?_⟩
  case _ =>
    rw [pageAtM_writeBs_out _ _ _ _ (Or.inl (by
        have hst : (szTail : Int) = 8 := rfl
        rw [hst, hszv, hps]
        omega)),
      pageAtM_flush_wrap]
    dsimp only
    rw [hrank]
    have h22i : (i : Int) < 22 := by exact_mod_cast h22
    exact wrap64_id ((i : Int)) ⟨le_trans (by norm_num) (Int.natCast_nonneg i),
      lt_trans h22i (by norm_num)⟩
  case _ =>
    calc head + 48
        = head + ((pageBytes
          { dirty := true, off := head, brk := (pageAtM a.store head).brk,
            prev := 0, next := 0, rank := (pageAtM a.store head).rank,
            size := (pageAtM a.store head).size,
            used := (pageAtM a.store head).used }).length : Int) := by
          rw [pageBytes_length]; norm_num
      _ ≤ _ := le_trans (writeBs_size_ge _ _ _ (pageBytes_ne_nil _))
            (writeBs_size_le _ _ _)
  case _ =>
    rw [pageAtM_writeBs_out _ _ _ _ (Or.inl (by
        have hst : (szTail : Int) = 8 := rfl
        rw [hst, hszv, hps]
        omega)),
      pageAtM_flush_wrap]
    dsimp only
    rw [wrap64_id _ (pageAtM_size_range a.store head), hszv]

theorem pageNextF_eq (s : Store) (o : Int) : pageNextF s o = (pageAtM s o).next := rfl

/-- Two distinct page-aligned offsets have disjoint 48-byte headers. -/
theorem header_header_disjoint (A B : Int)
    (hA : (A - szFile) % pageSize = 0) (hB : (B - szFile) % pageSize = 0)
    (hne : A ≠ B) : A + 48 ≤ B ∨ B + 48 ≤ A := by
  have hps : (pageSize : Int) = 4096 := rfl
  have hsf : (szFile : Int) = 256 := rfl
  rw [hps, hsf] at hA
  rw [hps, hsf] at hB
  omega

theorem allocMaxRank_post (a : Allocator) (head need : Int)
    (hInv : Inv a)
    (hreach : ReachN (pageNextF a.store) (getI a.pages 22) head)
    (hn1 : maxSlot < need) (hn2 : need % pageSize = 0)
    (hn3 : need ≤ (pageAtM a.store head).size)
    {off : Int} {a' : Allocator}
    (hrun : allocMaxRank (pageAtM a.store head) need a = (.ok off, a')) :
    ∃ u, PostAlloc a' off u ∧ u = need - szPage - szTail := by
  obtain ⟨hlp, hls, hf0, hf1, hs1, hpgInv, hslInv, hhdInv⟩ := hInv
  have hgood : GoodPageHead a.store 22 head :=
    hpgInv 22 (by rw [ranks_val]; omega) head hreach
  obtain ⟨hal, hmod, hszpos, hszle, hnsl, hrank, -, hexcl⟩ := hgood
  obtain ⟨hmodp, hple, -⟩ := hexcl (by rw [max_shared_val]; omega)
  have hmx : (maxSlot : Int) = 1024 := rfl
  have hps : (pageSize : Int) = 4096 := rfl
  have hst8 : (szTail : Int) = 8 := rfl
  have hn2i : need % 4096 = 0 := by rw [hps] at hn2; exact hn2
  have hn4096 : 4096 ≤ need := by rw [hmx] at hn1; omega
  have hszrange := pageAtM_size_range a.store head
  have hneed63 : need < 2 ^ 63 := lt_of_le_of_lt hn3 hszrange.2
  have hneedR : InRange64 need := ⟨by rw [hmx] at hn1; norm_num; omega, hneed63⟩
  unfold allocMaxRank at hrun
  simp only [AM.bind_apply] at hrun
  rcases hu : MemPage.unlink (pageAtM a.store head) a with ⟨ur, a2⟩
  rw [hu] at hrun
  rcases ur with e | m2
  · simp at hrun
  obtain ⟨hm2, hpg2, hsl2, hfs2, hstsz2, hfr2⟩ := unlink_spec _ _ hu
  subst hm2
  rw [hrank, Int.toNat_natCast, pageAtM_off] at hpg2
  simp only [MemPage.setPrev, MemPage.setNext, MemPage.setSize, MemPage.setRank,
    pageAtM_off, liftE_apply, AM.bind_apply, AM.pure_apply] at hrun
  rcases pageRankE_spec need hn1 with ⟨r2, hok2, h7r2, h22r2, -, -⟩
  rw [hok2] at hrun
  dsimp only at hrun
  simp only [MemPage.flush, Bool.not_true, Bool.false_eq_true, if_false,
    AM.bind_apply, AM.pure_apply, writeAt, modifyS_apply, MemPage.setTail,
    pageAtM_off, ite_not] at hrun
  by_cases hrem : (pageAtM a.store head).size - need = 0
  case pos =>
    rw [if_pos hrem] at hrun
    simp only [AM.bind_apply, AM.pure_apply] at hrun
    rw [flushA_eq] at hrun
    rw [Prod.mk.injEq, Except.ok.injEq] at hrun
    obtain ⟨hoffv, hav⟩ := hrun
    subst hav
    rw [← hoffv]
    refine ⟨_, postAllocBig_finish _ head r2 ?_ h7r2 (by omega) hal hmod ?_, ?_⟩
    case _ =>
      rw [pageAtM_writeBs_out _ _ _ _ (Or.inl (by rw [hst8]; omega)),
        pageAtM_flush_wrap]
      dsimp only
      have h22i : (r2 : Int) ≤ 22 := by exact_mod_cast h22r2
      exact wrap64_id ((r2 : Int)) ⟨le_trans (by norm_num) (Int.natCast_nonneg r2),
        lt_of_le_of_lt h22i (by norm_num)⟩
    case _ =>
      calc head + 48
          = head + ((pageBytes
            { dirty := true, off := head, brk := (pageAtM a.store head).brk,
              prev := 0, next := 0, rank := (r2 : Int), size := need,
              used := (pageAtM a.store head).used }).length : Int) := by
            rw [pageBytes_length]; norm_num
        _ ≤ _ := le_trans (writeBs_size_ge _ _ _ (pageBytes_ne_nil _))
              (writeBs_size_le _ _ _)
    case _ =>
      rw [pageAtM_writeBs_out _ _ _ _ (Or.inl (by rw [hst8]; omega)),
        pageAtM_flush_wrap]
      dsimp only
      rw [wrap64_id need hneedR]
  case neg =>
    rw [if_neg hrem] at hrun
    have hrm : (pageAtM a.store head).size % 4096 = 0 := by rw [hps] at hmodp; exact hmodp
    have hrge : 4096 ≤ (pageAtM a.store head).size - need := by omega
    rcases pageRankE_spec ((pageAtM a.store head).size - need)
        (by rw [hmx]; omega) with ⟨r3, hok3, h7r3, h22r3, -, -⟩
    simp only [liftE_apply, AM.bind_apply, AM.pure_apply] at hrun
    rw [hok3] at hrun
    dsimp only at hrun
    simp only [newMemPage, MemPage.setSize, MemPage.setRank, MemPage.setNext,
      insertPage, ne_eq, not_true_eq_false, not_false_eq_true, or_self, if_false,
      AM.bind_apply, AM.pure_apply, getS_apply, modifyS_apply,
      Int.toNat_natCast] at hrun
    -- facts about the list head that the new free page is linked in front of
    have hHfacts : getI a2.pages r3 ≠ 0 →
        szFile ≤ getI a2.pages r3 ∧ (getI a2.pages r3 - szFile) % pageSize = 0 ∧
        getI a2.pages r3 ≠ head := by
      intro hHne
      rw [hpg2] at hHne ⊢
      by_cases hhd : getI a.pages 22 = head
      · rw [if_pos hhd] at hHne ⊢
        by_cases h223 : r3 = 22
        · subst h223
          rw [getI_setI_self _ _ _ (by rw [hlp, ranks_val]; omega)] at hHne ⊢
          have hstep : pageNextF a.store head ≠ 0 := by rw [pageNextF_eq]; exact hHne
          have hreach2 : ReachN (pageNextF a.store) (getI a.pages 22)
              (pageNextF a.store head) := ReachN.step hreach hstep
          rw [pageNextF_eq] at hreach2
          obtain ⟨hA1, hA2, -, -, -, -, -, -⟩ :=
            hpgInv 22 (by rw [ranks_val]; omega) _ hreach2
          exact ⟨hA1, hA2, hnsl⟩
        · rw [getI_setI_ne _ _ _ _ (fun he => h223 he.symm)] at hHne ⊢
          obtain ⟨hA1, hA2, -, -, -, hArank, -, -⟩ :=
            hpgInv r3 (by rw [ranks_val]; omega) _ (.refl _ hHne)
          refine ⟨hA1, hA2, fun he => h223 ?_⟩
          rw [he, hrank] at hArank
          exact_mod_cast hArank.symm
      · rw [if_neg hhd] at hHne ⊢
        obtain ⟨hA1, hA2, -, -, -, hArank, -, -⟩ :=
          hpgInv r3 (by rw [ranks_val]; omega) _ (.refl _ hHne)
        by_cases h223 : r3 = 22
        · subst h223
          exact ⟨hA1, hA2, hhd⟩
        · refine ⟨hA1, hA2, fun he => h223 ?_⟩
          rw [he, hrank] at hArank
          exact_mod_cast hArank.symm
    by_cases hH : getI a2.pages r3 = 0
    case pos =>
      rw [hH] at hrun
      simp only [ite_not, if_true, if_pos rfl, ite_self, AM.bind_apply,
        AM.pure_apply, setPage, modifyS_apply, MemPage.flush, Bool.not_true,
        Bool.false_eq_true, if_false, writeAt, MemPage.setTail,
        Int.toNat_natCast] at hrun
      rw [flushA_eq] at hrun
      rw [Prod.mk.injEq, Except.ok.injEq] at hrun
      obtain ⟨hoffv, hav⟩ := hrun
      subst hav
      rw [← hoffv]
      refine ⟨_, postAllocBig_finish _ head r2 ?_ h7r2 (by omega) hal hmod ?_, ?_⟩
      case _ =>
        rw [pageAtM_writeBs_out _ _ _ _ (Or.inl (by rw [hst8]; omega)),
          pageAtM_writeBs_out _ _ _ _ (Or.inl (by omega)),
          pageAtM_writeBs_out _ _ _ _ (Or.inl (by rw [hst8]; omega)),
          pageAtM_flush_wrap]
        dsimp only
        have h22i : (r2 : Int) ≤ 22 := by exact_mod_cast h22r2
        exact wrap64_id ((r2 : Int)) ⟨le_trans (by norm_num) (Int.natCast_nonneg r2),
          lt_of_le_of_lt h22i (by norm_num)⟩
      case _ =>
        calc head + 48
            = head + ((pageBytes
              { dirty := true, off := head, brk := (pageAtM a.store head).brk,
                prev := 0, next := 0, rank := (r2 : Int), size := need,
                used := (pageAtM a.store head).used }).length : Int) := by
              rw [pageBytes_length]; norm_num
          _ ≤ _ := le_trans (writeBs_size_ge _ _ _ (pageBytes_ne_nil _))
                (le_trans (writeBs_size_le _ _ _)
                  (le_trans (writeBs_size_le _ _ _) (writeBs_size_le _ _ _)))
      case _ =>
        rw [pageAtM_writeBs_out _ _ _ _ (Or.inl (by rw [hst8]; omega)),
          pageAtM_writeBs_out _ _ _ _ (Or.inl (by omega)),
          pageAtM_writeBs_out _ _ _ _ (Or.inl (by rw [hst8]; omega)),
          pageAtM_flush_wrap]
        dsimp only
        rw [wrap64_id need hneedR]
    case neg =>
      obtain ⟨hA1, hA2, hAne⟩ := hHfacts hH
      have hdisjH : head + 48 ≤ getI a2.pages r3 ∨ getI a2.pages r3 + 48 ≤ head :=
        Or.symm (header_header_disjoint _ _ hA2 hmod hAne)
      simp only [ite_not, if_neg hH, AM.bind_apply, openPage_eq] at hrun
      split at hrun
      case h_2 => simp at hrun
      case h_1 hb4 =>
      split at hb4
      case h_2 => simp at hb4
      case h_1 hc =>
      split at hc
      case isFalse => simp at hc
      case isTrue hcc =>
      rw [Prod.mk.injEq, Except.ok.injEq] at hc
      obtain ⟨hv1, ha1⟩ := hc
      subst hv1
      subst ha1
      simp only [MemPage.setPrev, MemPage.flush, Bool.not_true, Bool.false_eq_true,
        if_false, AM.bind_apply, AM.pure_apply, writeAt, modifyS_apply, setPage,
        pageAtM_off, Int.toNat_natCast] at hb4
      rw [Prod.mk.injEq, Except.ok.injEq] at hb4
      obtain ⟨hv, ha2⟩ := hb4
      subst hv
      subst ha2
      simp only [MemPage.setPrev, MemPage.flush, Bool.not_true, Bool.false_eq_true,
        if_false, AM.bind_apply, AM.pure_apply, writeAt, modifyS_apply, setPage,
        MemPage.setTail, pageAtM_off, Int.toNat_natCast] at hrun
      rw [flushA_eq] at hrun
      rw [Prod.mk.injEq, Except.ok.injEq] at hrun
      obtain ⟨hoffv, hav⟩ := hrun
      subst hav
      rw [← hoffv]
      refine ⟨_, postAllocBig_finish _ head r2 ?_ h7r2 (by omega) hal hmod ?_, ?_⟩
      case _ =>
        rw [pageAtM_writeBs_out _ _ _ _ (Or.inl (by rw [hst8]; omega)),
          pageAtM_writeBs_out _ _ _ _ (Or.inl (by omega)),
          pageAtM_writeBs_out _ _ _ _ (by
            rw [pageBytes_length]
            push_cast
            rcases hdisjH with h | h
            · exact Or.inl h
            · exact Or.inr (by omega)),
          pageAtM_writeBs_out _ _ _ _ (Or.inl (by rw [hst8]; omega)),
          pageAtM_flush_wrap]
        dsimp only
        have h22i : (r2 : Int) ≤ 22 := by exact_mod_cast h22r2
        exact wrap64_id ((r2 : Int)) ⟨le_trans (by norm_num) (Int.natCast_nonneg r2),
          lt_of_le_of_lt h22i (by norm_num)⟩
      case _ =>
        calc head + 48
            = head + ((pageBytes
              { dirty := true, off := head, brk := (pageAtM a.store head).brk,
                prev := 0, next := 0, rank := (r2 : Int), size := need,
                used := (pageAtM a.store head).used }).length : Int) := by
              rw [pageBytes_length]; norm_num
          _ ≤ _ := le_trans (writeBs_size_ge _ _ _ (pageBytes_ne_nil _))
                (le_trans (writeBs_size_le _ _ _)
                  (le_trans (writeBs_size_le _ _ _)
                    (le_trans (writeBs_size_le _ _ _) (writeBs_size_le _ _ _))))
      case _ =>
        rw [pageAtM_writeBs_out _ _ _ _ (Or.inl (by rw [hst8]; omega)),
          pageAtM_writeBs_out _ _ _ _ (Or.inl (by omega)),
          pageAtM_writeBs_out _ _ _ _ (by
            rw [pageBytes_length]
            push_cast
            rcases hdisjH with h | h
            · exact Or.inl h
            · exact Or.inr (by omega)),
          pageAtM_writeBs_out _ _ _ _ (Or.inl (by rw [hst8]; omega)),
          pageAtM_flush_wrap]
        dsimp only
        rw [wrap64_id need hneedR]

theorem roundup_nonneg_4096 (n : Int) (h : -4096 < n) : 0 ≤ roundup n 4096 := by
  unfold roundup andn
  omega

theorem scanBig_post (a : Allocator) (size need : Int) (hInv : Inv a) (hsz : 0 < size)
    (hof : szPage + size + szTail + pageSize ≤ 2 ^ 63)
    (hneed : need = roundup (szPage + size + szTail) pageSize) :
    ∀ l : List Nat,
      (∀ j ∈ l, 7 ≤ j ∧ j < 23 ∧ (j < 22 → need ≤ ((j : Int) - 6) * pageSize)) →
      ∀ {off : Int} {a' : Allocator}, scanBig size need l a = (.ok off, a') →
      ∃ u, PostAlloc a' off u ∧ size ≤ u := by
  have hps : (pageSize : Int) = 4096 := rfl
  have hsp : (szPage : Int) = 48 := rfl
  have hst : (szTail : Int) = 8 := rfl
  have hmx : (maxSlot : Int) = 1024 := rfl
  have hneed_ge : szPage + size + szTail ≤ need := by
    rw [hneed]
    exact roundup_ge _ _ (by rw [hps]; norm_num)
  have hneed_lt : need < szPage + size + szTail + pageSize := by
    rw [hneed]
    exact roundup_lt _ _ (by rw [hps]; norm_num)
  have hneed_mod : need % pageSize = 0 := by
    rw [hneed]
    exact roundup_mod _ _ (by rw [hps]; norm_num)
  have hneed_mod4 : need % 4096 = 0 := by
    have h := hneed_mod
    rw [hps] at h
    exact h
  have hn1 : maxSlot < need := by
    rw [hmx]
    have hg := hneed_ge
    rw [hsp, hst] at hg
    omega
  have hneedR : InRange64 need := by
    constructor
    · rw [hmx] at hn1; norm_num; omega
    · have hg := hneed_lt
      have ho := hof
      rw [hsp, hst, hps] at hg ho
      norm_num
      omega
  obtain ⟨hlp, hls, hf0, hf1, hs1, hpgInv, hslInv, hhdInv⟩ := hInv
  intro l
  induction l with
  | nil =>
    intro hl off a' hrun
    simp only [scanBig] at hrun
    simp only [newPage, AM.bind_apply, AM.pure_apply, getS_apply, liftE_apply,
      modifyS_apply, newMemPage, MemPage.setRank, MemPage.setSize,
      MemPage.setTail, writeAt] at hrun
    rw [← hneed] at hrun
    rcases pageRankE_spec need hn1 with ⟨r2, hok2, h7r2, h22r2, -, -⟩
    rw [hok2] at hrun
    dsimp only at hrun
    simp only [MemPage.flush, Bool.not_true, Bool.false_eq_true, if_false,
      AM.bind_apply, AM.pure_apply, writeAt, modifyS_apply] at hrun
    rw [flushA_eq] at hrun
    rw [Prod.mk.injEq, Except.ok.injEq] at hrun
    obtain ⟨hoffv, hav⟩ := hrun
    subst hav
    rw [← hoffv]
    have hbase : 0 ≤ roundup (a.fsize - szFile) pageSize := by
      rw [hps]
      apply roundup_nonneg_4096
      have hsf : (szFile : Int) = 256 := rfl
      rw [hsf]
      omega
    have hal0 : szFile ≤ roundup (a.fsize - szFile) pageSize + szFile := by omega
    have hmod0 : (roundup (a.fsize - szFile) pageSize + szFile - szFile) % pageSize = 0 := by
      have : roundup (a.fsize - szFile) pageSize + szFile - szFile
          = roundup (a.fsize - szFile) pageSize := by ring
      rw [this]
      exact roundup_mod _ _ (by rw [hps]; norm_num)
    refine ⟨_, postAllocBig_finish _ (roundup (a.fsize - szFile) pageSize + szFile)
      r2 ?_ h7r2 (by omega) hal0 hmod0 ?_, ?_⟩
    case _ =>
      rw [pageAtM_flush_wrap]
      dsimp only
      have h22i : (r2 : Int) ≤ 22 := by exact_mod_cast h22r2
      exact wrap64_id ((r2 : Int)) ⟨le_trans (by norm_num) (Int.natCast_nonneg r2),
        lt_of_le_of_lt h22i (by norm_num)⟩
    case _ =>
      calc roundup (a.fsize - szFile) pageSize + szFile + 48
          = roundup (a.fsize - szFile) pageSize + szFile + ((pageBytes
            { dirty := true, off := roundup (a.fsize - szFile) pageSize + szFile,
              brk := 0, prev := 0, next := 0, rank := (r2 : Int), size := need,
              used := 0 }).length : Int) := by
            rw [pageBytes_length]; norm_num
        _ ≤ _ := writeBs_size_ge _ _ _ (pageBytes_ne_nil _)
    case _ =>
      rw [pageAtM_flush_wrap]
      dsimp only
      rw [wrap64_id need hneedR]
      rw [hsp, hst] at hneed_ge ⊢
      omega
  | cons i rest ih =>
    intro hl off a' hrun
    obtain ⟨h7i, h23i, hfit⟩ := hl i (List.mem_cons_self i rest)
    have hrest : ∀ j ∈ rest, 7 ≤ j ∧ j < 23 ∧ (j < 22 → need ≤ ((j : Int) - 6) * pageSize) :=
      fun j hj => hl j (List.mem_cons_of_mem i hj)
    simp only [scanBig, AM.bind_apply, getS_apply] at hrun
    by_cases hoff : getI a.pages i = 0
    case pos =>
      rw [if_pos hoff] at hrun
      exact ih hrest hrun
    case neg =>
      rw [if_neg hoff] at hrun
      by_cases hlt : i < ranks - 1
      case pos =>
        rw [if_pos hlt] at hrun
        have h22 : i < 22 := by
          have : ranks = 23 := rfl
          omega
        obtain ⟨u, hpost, huv⟩ := allocBig2_post a i h7i h22
          ⟨hlp, hls, hf0, hf1, hs1, hpgInv, hslInv, hhdInv⟩ hoff hrun
        refine ⟨u, hpost, ?_⟩
        rw [huv, hsp, hst]
        have := hfit h22
        rw [hsp, hst] at hneed_ge
        omega
      case neg =>
        rw [if_neg hlt] at hrun
        have hieq : i = 22 := by
          have : ranks = 23 := rfl
          omega
        subst hieq
        simp only [AM.bind_apply, openPage_eq] at hrun
        split at hrun
        case h_2 => simp at hrun
        case h_1 hb =>
        split at hb
        case isFalse => simp at hb
        case isTrue hbb =>
        rw [Prod.mk.injEq, Except.ok.injEq] at hb
        obtain ⟨hv, ha1⟩ := hb
        rw [← hv, ← ha1] at hrun
        by_cases hge : (pageAtM a.store (getI a.pages 22)).size ≥ need
        case pos =>
          rw [if_pos hge] at hrun
          obtain ⟨u, hpost, huv⟩ := allocMaxRank_post a (getI a.pages 22) need
            ⟨hlp, hls, hf0, hf1, hs1, hpgInv, hslInv, hhdInv⟩
            (.refl _ hoff) hn1 hneed_mod hge hrun
          refine ⟨u, hpost, ?_⟩
          rw [huv, hsp, hst]
          rw [hsp, hst] at hneed_ge
          omega
        case neg =>
          rw [if_neg hge] at hrun
          by_cases hnx : (pageAtM a.store (getI a.pages 22)).next = 0
          case pos =>
            rw [if_pos hnx] at hrun
            exact ih hrest hrun
          case neg =>
            rw [if_neg hnx] at hrun
            simp only [AM.bind_apply, openPage_eq] at hrun
            split at hrun
            case h_2 => simp at hrun
            case h_1 hb2 =>
            split at hb2
            case isFalse => simp at hb2
            case isTrue hbb2 =>
            rw [Prod.mk.injEq, Except.ok.injEq] at hb2
            obtain ⟨hv2, ha2⟩ := hb2
            rw [← hv2, ← ha2] at hrun
            by_cases hge2 : (pageAtM a.store
                ((pageAtM a.store (getI a.pages 22)).next)).size ≥ need
            case pos =>
              rw [if_pos hge2] at hrun
              have hstep : pageNextF a.store (getI a.pages 22) ≠ 0 := by
                rw [pageNextF_eq]
                exact hnx
              have hreach2 : ReachN (pageNextF a.store) (getI a.pages 22)
                  (pageNextF a.store (getI a.pages 22)) :=
                ReachN.step (.refl _ hoff) hstep
              rw [pageNextF_eq] at hreach2
              obtain ⟨u, hpost, huv⟩ := allocMaxRank_post a
                ((pageAtM a.store (getI a.pages 22)).next) need
                ⟨hlp, hls, hf0, hf1, hs1, hpgInv, hslInv, hhdInv⟩
                hreach2 hn1 hneed_mod hge2 hrun
              refine ⟨u, hpost, ?_⟩
              rw [huv, hsp, hst]
              rw [hsp, hst] at hneed_ge
              omega
            case neg =>
              rw [if_neg hge2] at hrun
              exact ih hrest hrun

theorem roundup_self_4096 (n : Int) (h : n % 4096 = 0) : roundup n 4096 = n := by
  unfold roundup andn
  omega

theorem allocBig_post (a : Allocator) (size : Int) (hInv : Inv a)
    (hsz : 0 < size) (hof : szPage + size + szTail + pageSize ≤ 2 ^ 63)
    {off : Int} {a' : Allocator}
    (hrun : allocBig size a = (.ok off, a')) :
    ∃ u, PostAlloc a' off u ∧ size ≤ u := by
  have hps : (pageSize : Int) = 4096 := rfl
  have hsp : (szPage : Int) = 48 := rfl
  have hst : (szTail : Int) = 8 := rfl
  have hmx : (maxSlot : Int) = 1024 := rfl
  have hneed_ge : szPage + size + szTail ≤ roundup (szPage + size + szTail) pageSize :=
    roundup_ge _ _ (by rw [hps]; norm_num)
  have hneed_mod : roundup (szPage + size + szTail) pageSize % pageSize = 0 :=
    roundup_mod _ _ (by rw [hps]; norm_num)
  have hneed_mod4 : roundup (szPage + size + szTail) pageSize % 4096 = 0 := by
    have h := hneed_mod
    rw [hps] at h
    exact h
  have hn1 : maxSlot < roundup (szPage + size + szTail) pageSize := by
    rw [hmx]
    have hg := hneed_ge
    rw [hsp, hst] at hg
    omega
  have hrneed4 : roundup (roundup (szPage + size + szTail) 4096) 4096
      = roundup (szPage + size + szTail) 4096 :=
    roundup_self_4096 _ (by rw [← hps]; exact hneed_mod)
  unfold allocBig at hrun
  simp only [liftE_apply, AM.bind_apply] at hrun
  rcases pageRankE_spec (roundup (szPage + size + szTail) pageSize) hn1 with
    ⟨r, hok, h7r, h22r, hexr, -⟩
  rw [hok] at hrun
  dsimp only at hrun
  refine scanBig_post a size _ ⟨hInv.1, hInv.2.1, hInv.2.2.1, hInv.2.2.2.1,
    hInv.2.2.2.2.1, hInv.2.2.2.2.2.1, hInv.2.2.2.2.2.2.1, hInv.2.2.2.2.2.2.2⟩
    hsz hof rfl _ ?_ hrun
  intro j hj
  rw [List.mem_range'_1] at hj
  obtain ⟨hj1, hj2⟩ := hj
  have hj23 : j < 23 := by
    have hrv : ranks = 23 := rfl
    omega
  refine ⟨by omega, hj23, fun hj22 => ?_⟩
  have hr22 : r < 22 := by omega
  have hex := hexr hr22
  rw [hps] at hex
  rw [hrneed4] at hex
  have hrj : (r : Int) ≤ (j : Int) := by exact_mod_cast hj1
  rw [hps]
  omega

theorem alloc_post (a : Allocator) (size : Int) (hInv : Inv a)
    (h1 : 0 < size) (hof : szPage + size + szTail + pageSize ≤ 2 ^ 63)
    {off : Int} {a' : Allocator}
    (hrun : alloc size a = (.ok off, a')) :
    ∃ u, PostAlloc a' off u ∧ size ≤ u := by
  have hmx : (maxSlot : Int) = 1024 := rfl
  have hInv1 : Inv { a with allocs := a.allocs + 1 } := hInv
  unfold alloc at hrun
  rw [if_neg (not_le.mpr h1)] at hrun
  simp only [AM.bind_apply, modifyS_apply] at hrun
  by_cases hbig : size > maxSlot
  case pos =>
    rw [if_pos hbig] at hrun
    exact allocBig_post _ size hInv1 h1 hof hrun
  case neg =>
    rw [if_neg hbig] at hrun
    have h1024 : size ≤ 1024 := by rw [hmx] at hbig; omega
    rcases slotRankE_spec size h1 h1024 with ⟨r, hr7, hokr, hszle, hle1024⟩
    simp only [liftE_apply, AM.bind_apply, getS_apply] at hrun
    rw [hokr] at hrun
    dsimp only at hrun
    simp only [ite_not] at hrun
    by_cases hpg : getI a.pages r = 0
    case neg =>
      rw [if_neg hpg] at hrun
      obtain hpost := sbrk_post { a with allocs := a.allocs + 1 } r hr7 hInv1 hpg hrun
      exact ⟨_, hpost, hszle⟩
    case pos =>
      rw [if_pos hpg] at hrun
      simp only [AM.bind_apply, getS_apply, ite_not] at hrun
      by_cases hp7 : getI a.pages firstPageRank = 0
      case neg =>
        rw [if_neg hp7] at hrun
        obtain hpost := sbrk2_post { a with allocs := a.allocs + 1 } r hr7 hInv1 hp7 hrun
        exact ⟨_, hpost, hszle⟩
      case pos =>
        rw [if_pos hp7] at hrun
        simp only [AM.bind_apply, getS_apply, ite_not] at hrun
        by_cases hsl : getI a.slots r = 0
        case neg =>
          rw [if_neg hsl] at hrun
          obtain hpost := allocSlot_post { a with allocs := a.allocs + 1 } r hr7 hInv1 hsl hrun
          exact ⟨_, hpost, hszle⟩
        case pos =>
          rw [if_pos hsl] at hrun
          -- fresh shared page path
          obtain ⟨hlp, hls, hf0, hf1, hs1, hpgInv, hslInv, hhdInv⟩ := hInv
          have hps : (pageSize : Int) = 4096 := rfl
          simp only [newSharedPage, AM.bind_apply, AM.pure_apply, getS_apply,
            modifyS_apply, newMemPage, MemPage.setRank, MemPage.setSize,
            MemPage.setTail, writeAt, insertPage, ne_eq, not_true_eq_false,
            not_false_eq_true, or_self, if_false, MemPage.setNext, MemPage.setUsed,
            MemPage.setBrk, Int.toNat_natCast, MemPage.slot, pageAtM_off] at hrun
          by_cases hH : getI a.pages r = 0
          case pos =>
            rw [hH] at hrun
            simp only [ite_not, if_true, if_pos rfl, ite_self, AM.bind_apply,
              AM.pure_apply, setPage, modifyS_apply, MemPage.flush, Bool.not_true,
              Bool.false_eq_true, if_false, writeAt, Int.toNat_natCast] at hrun
            rw [flushA_eq] at hrun
            rw [Prod.mk.injEq, Except.ok.injEq] at hrun
            obtain ⟨hoffv, hav⟩ := hrun
            subst hav
            rw [← hoffv]
            rw [cast_add4_toNat]
            have hbase : 0 ≤ roundup (a.fsize - szFile) pageSize := by
              rw [hps]
              apply roundup_nonneg_4096
              have hsf : (szFile : Int) = 256 := rfl
              rw [hsf]
              omega
            have hal0 : szFile ≤ roundup (a.fsize - szFile) pageSize + szFile := by omega
            have hmod0 : (roundup (a.fsize - szFile) pageSize + szFile - szFile) % pageSize = 0 := by
              have he : roundup (a.fsize - szFile) pageSize + szFile - szFile
                  = roundup (a.fsize - szFile) pageSize := by ring
              rw [he]
              exact roundup_mod _ _ (by rw [hps]; norm_num)
            refine ⟨_, postAlloc_finish _ (roundup (a.fsize - szFile) pageSize + szFile)
              r 0 ?_ hr7 hal0 hmod0 ?_ le_rfl (shared_rank_facts r hr7).2.2.2.2, hszle⟩
            case _ =>
              rw [pageAtM_flush_wrap]
              dsimp only
              have hr7i : (r : Int) < 7 := by exact_mod_cast hr7
              exact wrap64_id ((r : Int)) ⟨le_trans (by norm_num) (Int.natCast_nonneg r),
                lt_trans hr7i (by norm_num)⟩
            case _ =>
              calc roundup (a.fsize - szFile) pageSize + szFile + 48
                  = roundup (a.fsize - szFile) pageSize + szFile + ((pageBytes
                    { dirty := true, off := roundup (a.fsize - szFile) pageSize + szFile,
                      brk := 1, prev := 0, next := 0, rank := (r : Int),
                      size := pageSize, used := 1 }).length : Int) := by
                    rw [pageBytes_length]; norm_num
                _ ≤ _ := writeBs_size_ge _ _ _ (pageBytes_ne_nil _)
          case neg =>
            simp only [ite_not, if_neg hH, AM.bind_apply, openPage_eq] at hrun
            split at hrun
            case h_2 => simp at hrun
            case h_1 hb4 =>
            split at hb4
            case h_2 => simp at hb4
            case h_1 hc =>
            split at hc
            case isFalse => simp at hc
            case isTrue hcc =>
            rw [Prod.mk.injEq, Except.ok.injEq] at hc
            obtain ⟨hv1, ha1⟩ := hc
            subst hv1
            subst ha1
            simp only [MemPage.setPrev, MemPage.flush, Bool.not_true,
              Bool.false_eq_true, if_false, AM.bind_apply, AM.pure_apply, writeAt,
              modifyS_apply, setPage, pageAtM_off, Int.toNat_natCast] at hb4
            rw [Prod.mk.injEq, Except.ok.injEq] at hb4
            obtain ⟨hv, ha2⟩ := hb4
            subst hv
            subst ha2
            simp only [MemPage.setPrev, MemPage.flush, Bool.not_true,
              Bool.false_eq_true, if_false, AM.bind_apply, AM.pure_apply, writeAt,
              modifyS_apply, setPage, Int.toNat_natCast, pageAtM_off] at hrun
            rw [flushA_eq] at hrun
            rw [Prod.mk.injEq, Except.ok.injEq] at hrun
            obtain ⟨hoffv, hav⟩ := hrun
            subst hav
            rw [← hoffv]
            rw [cast_add4_toNat]
            have hbase : 0 ≤ roundup (a.fsize - szFile) pageSize := by
              rw [hps]
              apply roundup_nonneg_4096
              have hsf : (szFile : Int) = 256 := rfl
              rw [hsf]
              omega
            have hal0 : szFile ≤ roundup (a.fsize - szFile) pageSize + szFile := by omega
            have hmod0 : (roundup (a.fsize - szFile) pageSize + szFile - szFile) % pageSize = 0 := by
              have he : roundup (a.fsize - szFile) pageSize + szFile - szFile
                  = roundup (a.fsize - szFile) pageSize := by ring
              rw [he]
              exact roundup_mod _ _ (by rw [hps]; norm_num)
            refine ⟨_, postAlloc_finish _ (roundup (a.fsize - szFile) pageSize + szFile)
              r 0 ?_ hr7 hal0 hmod0 ?_ le_rfl (shared_rank_facts r hr7).2.2.2.2, hszle⟩
            case _ =>
              rw [pageAtM_flush_wrap]
              dsimp only
              have hr7i : (r : Int) < 7 := by exact_mod_cast hr7
              exact wrap64_id ((r : Int)) ⟨le_trans (by norm_num) (Int.natCast_nonneg r),
                lt_trans hr7i (by norm_num)⟩
            case _ =>
              calc roundup (a.fsize - szFile) pageSize + szFile + 48
                  = roundup (a.fsize - szFile) pageSize + szFile + ((pageBytes
                    { dirty := true, off := roundup (a.fsize - szFile) pageSize + szFile,
                      brk := 1, prev := 0, next := getI a.pages r, rank := (r : Int),
                      size := pageSize, used := 1 }).length : Int) := by
                    rw [pageBytes_length]; norm_num
                _ ≤ _ := writeBs_size_ge _ _ _ (pageBytes_ne_nil _)

theorem callocZero_frame : ∀ (fuel : Nat) (size dst : Int) (bl : Nat) (a : Allocator)
    {r : Except Err Unit} {a' : Allocator},
    callocZero fuel size dst bl a = (r, a') →
    (∀ o : Int, o + 48 ≤ dst → pageAtM a'.store o = pageAtM a.store o) ∧
    a.store.size ≤ a'.store.size := by
  intro fuel
  induction fuel with
  | zero =>
    intro size dst bl a r a' h
    simp only [callocZero] at h
    split at h
    · simp only [AM.pure_apply, Prod.mk.injEq] at h
      obtain ⟨-, ha⟩ := h
      subst ha
      exact ⟨fun o _ => rfl, le_rfl⟩
    · simp only [throwE_apply, Prod.mk.injEq] at h
      obtain ⟨-, ha⟩ := h
      subst ha
      exact ⟨fun o _ => rfl, le_rfl⟩
  | succ n ih =>
    intro size dst bl a r a' h
    simp only [callocZero] at h
    split at h
    · simp only [AM.pure_apply, Prod.mk.injEq] at h
      obtain ⟨-, ha⟩ := h
      subst ha
      exact ⟨fun o _ => rfl, le_rfl⟩
    · simp only [AM.bind_apply, writeAt, modifyS_apply, AM.pure_apply] at h
      obtain ⟨hfr, hsz⟩ := ih _ _ _ _ h
      constructor
      · intro o ho
        rw [hfr o (by
          have : (0:Int) ≤ ((if size < (bl : Int) then size.toNat else bl : Nat) : Int) :=
            Int.natCast_nonneg _
          omega)]
        exact pageAtM_writeBs_out _ _ _ _ (Or.inl ho)
      · exact le_trans (writeBs_size_le _ _ _) hsz

theorem usableSize_ok_bounds {a a' : Allocator} {off n : Int} {p : MemPage}
    (hu : usableSize off a = (.ok (n, p), a')) :
    0 ≤ alignPage off ∧ alignPage off + 48 ≤ a.store.size := by
  have hoff := usableSize_ok_off_ge hu
  have h1 : ¬ (off < szFile + szPage) := by omega
  simp only [usableSize, if_neg h1, AM.bind_apply, openPage_eq] at hu
  by_cases hb : 0 ≤ alignPage off ∧ alignPage off + 48 ≤ a.store.size
  · exact hb
  · rw [if_neg hb] at hu
    simp at hu

theorem postAlloc_frame (a1 a2 : Allocator) (off u : Int)
    (hp : PostAlloc a1 off u)
    (hfr : pageAtM a2.store (alignPage off) = pageAtM a1.store (alignPage off))
    (hsz : a1.store.size ≤ a2.store.size) :
    PostAlloc a2 off u := by
  obtain ⟨h1, h2, h3, h4⟩ := hp
  obtain ⟨hb0, hb1⟩ := usableSize_ok_bounds h4
  obtain ⟨-, -, hr0, hr1, hsh, hbig⟩ := usableSize_ok_inv h4
  refine ⟨h1, h2, h3, ?_⟩
  rw [usableSize_compute a2 off h1 hb0 (le_trans hb1 hsz)
    (by rw [hfr]; exact hr0) (by rw [hfr]; exact hr1)]
  rw [hfr]
  by_cases hcase : (pageAtM a1.store (alignPage off)).rank ≤ (maxSharedRank : Int)
  · rw [if_pos hcase, hsh hcase]
  · rw [if_neg hcase, hbig (not_le.mp hcase)]

theorem calloc_post (a : Allocator) (size : Int) (hInv : Inv a)
    (h1 : 0 < size) (hof : szPage + size + szTail + pageSize ≤ 2 ^ 63)
    {off : Int} {a' : Allocator}
    (hrun : calloc size a = (.ok off, a')) :
    ∃ u, PostAlloc a' off u ∧ size ≤ u := by
  unfold calloc at hrun
  simp only [AM.bind_apply] at hrun
  rcases ha : alloc size a with ⟨ar, a1⟩
  rw [ha] at hrun
  rcases ar with e | off0
  · simp at hrun
  dsimp only at hrun
  obtain ⟨u, hpost, hle⟩ := alloc_post a size hInv h1 hof ha
  rcases hz : callocZero (size.toNat + 1) size off0 (min bufSize size).toNat a1 with ⟨zr, a2⟩
  rw [hz] at hrun
  rcases zr with e | u0
  · simp at hrun
  simp only [AM.pure_apply, Prod.mk.injEq, Except.ok.injEq] at hrun
  obtain ⟨hoffv, hav⟩ := hrun
  subst hav
  rw [← hoffv]
  obtain ⟨hfr, hszmono⟩ := callocZero_frame _ _ _ _ _ hz
  refine ⟨u, postAlloc_frame a1 a2 off0 u hpost ?_ hszmono, hle⟩
  apply hfr
  have h3 := hpost.2.2.1
  have hsp : (szPage : Int) = 48 := rfl
  rw [hsp] at h3
  omega

theorem getI_replicate_zero (n i : Nat) : getI (List.replicate n 0) i = 0 := by
  unfold getI
  rcases Nat.lt_or_ge i n with h | h
  · rw [List.getD_eq_getElem?_getD, List.getElem?_replicate, if_pos h]
    rfl
  · rw [List.getD_eq_getElem?_getD, List.getElem?_replicate, if_neg (by omega)]
    rfl

/-- The freshly opened allocator satisfies the data-model invariants: all
free-list heads are nil, so the reachability conditions hold vacuously. -/
theorem inv_aOpen : Inv aOpen := by
  refine ⟨rfl, rfl, le_rfl, by decide, by decide, ?_, ?_, ?_⟩
  · intro i hi o hr
    rw [show getI aOpen.pages i = 0 from getI_replicate_zero _ _] at hr
    exact absurd hr (fun h => not_reachN_zero h)
  · intro r hr o hn
    rw [show getI aOpen.slots r = 0 from getI_replicate_zero _ _] at hn
    exact absurd hn (fun h => not_reachN_zero h)
  · intro r hr hne
    exact absurd (getI_replicate_zero _ _) hne

/-- C3: for an allocator state satisfying the data-model invariants and a
positive size in the int64-safe range, a successful alloc (and calloc)
returns an offset whose usableSize is at least the requested size, on
every dispatch path. -/
theorem alloc_usable_at_least_size (a : Allocator) (size : Int) (hInv : Inv a)
    (h1 : 0 < size) (hof : szPage + size + szTail + pageSize ≤ 2 ^ 63)
    (off : Int) (a' : Allocator) :
    (alloc size a = (.ok off, a') →
      ∃ u p, usableSize off a' = (.ok (u, p), a') ∧ size ≤ u) ∧
    (calloc size a = (.ok off, a') →
      ∃ u p, usableSize off a' = (.ok (u, p), a') ∧ size ≤ u) := by
  constructor
  · intro hrun
    obtain ⟨u, hpost, hle⟩ := alloc_post a size hInv h1 hof hrun
    exact ⟨u, _, hpost.2.2.2, hle⟩
  · intro hrun
    obtain ⟨u, hpost, hle⟩ := calloc_post a size hInv h1 hof hrun
    exact ⟨u, _, hpost.2.2.2, hle⟩

theorem alloc_usable_at_least_size_witness :
    ∃ u p, usableSize 304 (alloc 1 aOpen).2 = (.ok (u, p), (alloc 1 aOpen).2) ∧ (1:Int) ≤ u :=
  (alloc_usable_at_least_size aOpen 1 inv_aOpen (by norm_num) (by decide)
    304 (alloc 1 aOpen).2).1
    (by
      have h : (alloc 1 aOpen).1 = Except.ok 304 := by decide
      calc alloc 1 aOpen = ((alloc 1 aOpen).1, (alloc 1 aOpen).2) := rfl
        _ = (Except.ok 304, (alloc 1 aOpen).2) := by rw [h])

theorem split_ok_value (m : MemPage) (need : Int) (a : Allocator) {v : Int} {a' : Allocator}
    (hrun : m.split need a = (.ok v, a')) : v = m.off + szPage := by
  unfold MemPage.split at hrun
  repeat'
    first
      | split at hrun
      | simp only [AM.bind_apply, AM.pure_apply, liftE_apply, getS_apply, modifyS_apply,
          MemPage.setSize, MemPage.setRank, MemPage.setNext, MemPage.setPrev,
          MemPage.setTail, MemPage.flush, newMemPage, insertPage, writeAt, throwE_apply,
          Bool.not_true, Bool.false_eq_true, if_false, ne_eq, not_true_eq_false,
          not_false_eq_true, or_self, ite_not, Int.toNat_natCast, openPage_eq,
          pageAtM_off] at hrun
  all_goals
    first
      | (exfalso; simp_all; done)
      | (rw [Prod.mk.injEq, Except.ok.injEq] at hrun
         exact hrun.1.symm)

theorem reallocMove_offset (a : Allocator) (off0 oldSize size : Int) (hInv : Inv a)
    (h1 : 0 < size) (hof : szPage + size + szTail + pageSize ≤ 2 ^ 63)
    {off : Int} {a' : Allocator}
    (hrun : reallocMove off0 oldSize size a = (.ok off, a')) :
    szFile + szPage ≤ off ∧ off % 16 = 0 := by
  unfold reallocMove at hrun
  simp only [AM.bind_apply] at hrun
  rcases hal : alloc size a with ⟨alr, a2⟩
  rw [hal] at hrun
  rcases alr with e | newOff
  · simp at hrun
  dsimp only at hrun
  obtain ⟨u, hpost, -⟩ := alloc_post a size hInv h1 hof hal
  split at hrun
  case h_2 => simp at hrun
  case h_1 hcp =>
  split at hrun
  case h_2 => simp at hrun
  case h_1 hfr =>
  simp only [AM.pure_apply, Prod.mk.injEq, Except.ok.injEq] at hrun
  obtain ⟨hoffv, -⟩ := hrun
  rw [← hoffv]
  exact ⟨hpost.1, hpost.2.1⟩

theorem alignPage_facts (off0 : Int) (h : szFile + szPage ≤ off0) :
    szFile ≤ alignPage off0 ∧ (alignPage off0 + szPage) % 16 = 0 := by
  have ha : alignPage off0 = (off0 - 256) - (off0 - 256) % 4096 + 256 := rfl
  have hsf : (szFile : Int) = 256 := rfl
  have hsp : (szPage : Int) = 48 := rfl
  rw [hsf, hsp] at h ⊢
  rw [ha]
  omega

/-- C10 (amended): every offset returned by a successful alloc or calloc is
at least szFile + szPage = 304 and a multiple of 16; a successful
realloc with size > 0 returns an offset that is at least 304, and it is a
multiple of 16 whenever the offset passed in was (the in-place path
returns the argument unchanged). -/
theorem returned_offsets_aligned (a : Allocator) (size off0 : Int) (hInv : Inv a)
    (h1 : 0 < size) (hof : szPage + size + szTail + pageSize ≤ 2 ^ 63) :
    (∀ (off : Int) (a' : Allocator), alloc size a = (.ok off, a') →
      szFile + szPage ≤ off ∧ off % 16 = 0) ∧
    (∀ (off : Int) (a' : Allocator), calloc size a = (.ok off, a') →
      szFile + szPage ≤ off ∧ off % 16 = 0) ∧
    (∀ (off : Int) (a' : Allocator), realloc off0 size a = (.ok off, a') →
      szFile + szPage ≤ off ∧ (off0 % 16 = 0 → off % 16 = 0)) := by
  refine ⟨?_, ?_, ?_⟩
  · intro off a' hrun
    obtain ⟨u, hpost, -⟩ := alloc_post a size hInv h1 hof hrun
    exact ⟨hpost.1, hpost.2.1⟩
  · intro off a' hrun
    obtain ⟨u, hpost, -⟩ := calloc_post a size hInv h1 hof hrun
    exact ⟨hpost.1, hpost.2.1⟩
  · intro off a' hrun
    unfold realloc at hrun
    by_cases hg : off0 < szFile + szPage
    · rw [if_pos hg] at hrun
      simp at hrun
    rw [if_neg hg] at hrun
    push_neg at hg
    rw [if_neg (by omega : ¬ size = 0)] at hrun
    simp only [AM.bind_apply] at hrun
    rcases hus : usableSize off0 a with ⟨usr, a1⟩
    rw [hus] at hrun
    rcases usr with e | os
    · simp at hrun
    rcases os with ⟨n, p⟩
    obtain ⟨ha1, hpg, hr0, hr1, -, -⟩ := usableSize_ok_inv hus
    rw [ha1] at hrun
    dsimp only at hrun
    by_cases hge : n ≥ size
    case neg =>
      rw [if_neg hge] at hrun
      obtain ⟨hh1, hh2⟩ := reallocMove_offset a off0 n size hInv h1 hof hrun
      exact ⟨hh1, fun _ => hh2⟩
    case pos =>
      rw [if_pos hge] at hrun
      simp only [liftE_apply, AM.bind_apply] at hrun
      rcases hrk : rankE size with e | nr
      · rw [hrk] at hrun
        simp at hrun
      rw [hrk] at hrun
      dsimp only at hrun
      by_cases heq : p.rank = (nr : Int)
      case pos =>
        rw [if_pos heq] at hrun
        simp only [AM.pure_apply, Prod.mk.injEq, Except.ok.injEq] at hrun
        obtain ⟨hoffv, -⟩ := hrun
        rw [← hoffv]
        exact ⟨hg, fun h16 => h16⟩
      case neg =>
        rw [if_neg heq] at hrun
        by_cases hcond : (nr : Int) > (maxSharedRank : Int) ∧
            p.size > roundup (szPage + size + szTail) pageSize
        case pos =>
          rw [if_pos hcond] at hrun
          have hval := split_ok_value _ _ _ hrun
          rw [hval, hpg, pageAtM_off]
          obtain ⟨hf1, hf2⟩ := alignPage_facts off0 hg
          exact ⟨by omega, fun _ => hf2⟩
        case neg =>
          rw [if_neg hcond] at hrun
          obtain ⟨hh1, hh2⟩ := reallocMove_offset a off0 n size hInv h1 hof hrun
          exact ⟨hh1, fun _ => hh2⟩

theorem realloc_returns_misaligned_offset :
    (realloc 305 10 aLive).1 = .ok 305 ∧ ¬ ((305 : Int) % 16 = 0) := by decide

theorem returned_offsets_aligned_witness :
    szFile + szPage ≤ 304 ∧ (304 : Int) % 16 = 0 :=
  (returned_offsets_aligned aOpen 1 304 inv_aOpen (by norm_num) (by decide)).1
    304 (alloc 1 aOpen).2
    (by
      have h : (alloc 1 aOpen).1 = Except.ok 304 := by decide
      calc alloc 1 aOpen = ((alloc 1 aOpen).1, (alloc 1 aOpen).2) := rfl
        _ = (Except.ok 304, (alloc 1 aOpen).2) := by rw [h])

end FileAlloc
